import Mathlib

/-!
Verification of the Sena orchestration runtime (Python source) against its
natural-language specification.  Each component that the claims touch is
shallowly embedded: the relevant Python classes become Lean structures,
their methods become pure functions (stateful methods are explicit
state-passing functions), and time is a logical `Nat` clock.  Floating-point
arithmetic (numpy cosine similarity) is abstracted behind an explicit
function parameter; everything else is executable.
-/

namespace Sena

/-- Model slots, from `ModelType` in `src/core/constants.py`
(declaration order: FAST, CRITICAL, CODE, ROUTER, REASONING). -/
inductive MT where
  | fast
  | critical
  | code
  | router
  | reasoning
deriving DecidableEq, Repr

/-- Python's `str.strip()`: drop leading and trailing whitespace. -/
def pyStrip (s : String) : String :=
  ⟨((s.data.dropWhile Char.isWhitespace).reverse.dropWhile Char.isWhitespace).reverse⟩

end Sena

namespace Sena.Router

/-!
## IntentRouter circuit breaker (`src/llm/router.py`, `IntentRouter._llm_classify`)

State per router: `_router_failure_count : int` and
`_router_circuit_open_until : float` (a monotonic timestamp, here a `Nat`
clock in seconds).  `_CIRCUIT_FAILURE_THRESHOLD = 3`,
`_CIRCUIT_COOLDOWN = 300.0`.

`_llm_classify` manipulates this state exactly as follows (lines 273-308):
read `router_model = registry.get_model(ROUTER)`; compute
`circuit_open = now < open_until`; if the router model is missing or the
circuit is open, fetch the FAST slot instead and do not attempt a load;
otherwise, if the router model is not loaded, attempt `load()`:
on success set `failure_count := 0` (nothing else), on failure increment
the count, open the circuit for 300 s once the count reaches 3, and fall
back to the FAST slot for this request.
-/

/-- Circuit-breaker state of the `IntentRouter`
(`_router_failure_count`, `_router_circuit_open_until`). -/
structure CBState where
  failureCount : Nat
  openUntil : Nat
deriving DecidableEq, Repr

/-- `_CIRCUIT_FAILURE_THRESHOLD` in `src/llm/router.py`. -/
def circuitFailureThreshold : Nat := 3

/-- `_CIRCUIT_COOLDOWN` (seconds) in `src/llm/router.py`. -/
def circuitCooldown : Nat := 300

/-- Outcome of one `_llm_classify` call, as far as the circuit breaker and
model-slot selection are concerned: the new breaker state, whether a
router-model `load()` was attempted, and which registry slot's client is
used for the generation step (`none` = no usable model, the source returns
the low-confidence `general_conversation` fallback). -/
structure ClassifyOutcome where
  st : CBState
  loadAttempted : Bool
  slotUsed : Option Sena.MT
deriving DecidableEq, Repr

/-- One `_llm_classify` call (`src/llm/router.py` lines 273-318), sliced to
its circuit-breaker/state effects.  Inputs mirror the environment the code
reads: `now` (`time.monotonic()`), `routerAvail`
(`registry.get_model(ROUTER)` is not `None`), `routerLoaded`
(`router_model.is_loaded`), `fastAvail` (`registry.get_model(FAST)` is not
`None`), and `loadSucceeds` (whether `router_model.load()` returns without
raising). -/
def llmClassifyStep (st : CBState) (now : Nat) (routerAvail routerLoaded fastAvail loadSucceeds : Bool) :
    ClassifyOutcome :=
  let circuitOpen : Bool := decide (now < st.openUntil)
  if !routerAvail || circuitOpen then
    -- `router_model = registry.get_model(FAST)`; no load attempt on the router path
    if fastAvail then ⟨st, false, some Sena.MT.fast⟩ else ⟨st, false, none⟩
  else if !routerLoaded then
    if loadSucceeds then
      -- successful load: `self._router_failure_count = 0` (open_until untouched)
      ⟨⟨0, st.openUntil⟩, true, some Sena.MT.router⟩
    else
      let fc := st.failureCount + 1
      let ou := if circuitFailureThreshold ≤ fc then now + circuitCooldown else st.openUntil
      if fastAvail then ⟨⟨fc, ou⟩, true, some Sena.MT.fast⟩ else ⟨⟨fc, ou⟩, true, none⟩
  else
    ⟨st, false, some Sena.MT.router⟩

/-- Environment of one classify call: time plus the four boolean inputs of
`llmClassifyStep`. -/
structure CallEnv where
  now : Nat
  routerAvail : Bool
  routerLoaded : Bool
  fastAvail : Bool
  loadSucceeds : Bool
deriving DecidableEq, Repr

/-- Run a sequence of `_llm_classify` calls, returning the final breaker
state and the total number of router-model load attempts performed. -/
def runCalls (st : CBState) : List CallEnv → CBState × Nat
  | [] => (st, 0)
  | e :: es =>
    let o := llmClassifyStep st e.now e.routerAvail e.routerLoaded e.fastAvail e.loadSucceeds
    let r := runCalls o.st es
    (r.1, (if o.loadAttempted then 1 else 0) + r.2)

/-- While the circuit is open (`now < openUntil`), a classify call attempts
no load, leaves the breaker state untouched, and uses the fast slot when it
is available. -/
lemma step_while_open (st : CBState) (t : Nat) (h : t < st.openUntil)
    (ra rl fa ls : Bool) :
    (llmClassifyStep st t ra rl fa ls).st = st ∧
    (llmClassifyStep st t ra rl fa ls).loadAttempted = false ∧
    (llmClassifyStep st t ra rl fa ls).slotUsed = (if fa then some Sena.MT.fast else none) := by
  cases ra <;> cases fa <;> simp [llmClassifyStep, h]

/-- Running any sequence of classify calls whose times all precede
`openUntil` performs zero load attempts and never changes the state. -/
lemma runCalls_while_open (st : CBState) (calls : List CallEnv)
    (h : ∀ e ∈ calls, e.now < st.openUntil) :
    runCalls st calls = (st, 0) := by
  induction calls with
  | nil => rfl
  | cons e es ih =>
    have he := h e (List.mem_cons_self e es)
    have hs := step_while_open st e.now he e.routerAvail e.routerLoaded e.fastAvail e.loadSucceeds
    simp only [runCalls, hs.1, hs.2.1]
    rw [ih (fun x hx => by rw [← hs.1] at h ⊢; exact h x (List.mem_cons_of_mem e hx))]
    simp

/-- C2: after 3 consecutive router-model load failures (starting from a
zero failure count with the circuit closed), the circuit opens until
`t3 + 300`; every classify call during the following 300 seconds performs
zero additional router-model load attempts, leaves the breaker state
unchanged, and classifies with the fast slot whenever it is available. -/
theorem circuit_breaker_skips_router_loads
    (st0 : CBState) (t1 t2 t3 : Nat) (a1 a2 a3 : Bool)
    (o1 o2 o3 : ClassifyOutcome)
    (h0 : st0.failureCount = 0)
    (hou : st0.openUntil ≤ t1) (h12 : t1 ≤ t2) (h23 : t2 ≤ t3)
    (e1 : o1 = llmClassifyStep st0 t1 true false a1 false)
    (e2 : o2 = llmClassifyStep o1.st t2 true false a2 false)
    (e3 : o3 = llmClassifyStep o2.st t3 true false a3 false) :
    o1.loadAttempted = true ∧ o2.loadAttempted = true ∧ o3.loadAttempted = true ∧
    o3.st.failureCount = 3 ∧ o3.st.openUntil = t3 + circuitCooldown ∧
    (∀ calls : List CallEnv, (∀ e ∈ calls, e.now < t3 + circuitCooldown) →
      (runCalls o3.st calls).2 = 0 ∧ (runCalls o3.st calls).1 = o3.st) ∧
    (∀ t ra rl fa ls, t < t3 + circuitCooldown →
      (llmClassifyStep o3.st t ra rl fa ls).loadAttempted = false ∧
      (llmClassifyStep o3.st t ra rl fa ls).slotUsed = (if fa then some Sena.MT.fast else none)) := by
  have hn1 : ¬ t1 < st0.openUntil := Nat.not_lt.mpr hou
  have h1 : o1 = ⟨⟨1, st0.openUntil⟩, true, if a1 then some Sena.MT.fast else none⟩ := by
    subst e1
    cases a1 <;> simp [llmClassifyStep, hn1, h0, circuitFailureThreshold]
  have hn2 : ¬ t2 < st0.openUntil := Nat.not_lt.mpr (le_trans hou h12)
  have h2 : o2 = ⟨⟨2, st0.openUntil⟩, true, if a2 then some Sena.MT.fast else none⟩ := by
    subst e2
    cases a2 <;> simp [llmClassifyStep, hn2, h1, circuitFailureThreshold]
  have hn3 : ¬ t3 < st0.openUntil := Nat.not_lt.mpr (le_trans hou (le_trans h12 h23))
  have h3 : o3 = ⟨⟨3, t3 + circuitCooldown⟩, true, if a3 then some Sena.MT.fast else none⟩ := by
    subst e3
    cases a3 <;> simp [llmClassifyStep, hn3, h2, circuitFailureThreshold]
  refine ⟨by rw [h1], by rw [h2], by rw [h3], by rw [h3], by rw [h3], ?_, ?_⟩
  · intro calls hc
    have hst : o3.st.openUntil = t3 + circuitCooldown := by rw [h3]
    have := runCalls_while_open o3.st calls (fun e he => by rw [hst]; exact hc e he)
    exact ⟨by rw [this], by rw [this]⟩
  · intro t ra rl fa ls ht
    have hopen : t < o3.st.openUntil := by rw [h3]; exact ht
    have hs := step_while_open o3.st t hopen ra rl fa ls
    exact ⟨hs.2.1, hs.2.2⟩

/-- Witness for C2 at concrete inputs: failures at times 10, 20, 30 open
the circuit until 330; two classify calls at times 100 and 329 perform zero
load attempts. -/
theorem circuit_breaker_skips_router_loads_witness :
    (runCalls ⟨3, 330⟩
      [⟨100, true, false, true, false⟩, ⟨329, true, true, false, true⟩]).2 = 0 ∧
    (runCalls ⟨3, 330⟩
      [⟨100, true, false, true, false⟩, ⟨329, true, true, false, true⟩]).1 = (⟨3, 330⟩ : CBState) := by
  have h := circuit_breaker_skips_router_loads ⟨0, 0⟩ 10 20 30 true true true
    ⟨⟨1, 0⟩, true, some Sena.MT.fast⟩ ⟨⟨2, 0⟩, true, some Sena.MT.fast⟩
    ⟨⟨3, 330⟩, true, some Sena.MT.fast⟩
    rfl (by decide) (by decide) (by decide) (by decide) (by decide) (by decide)
  exact h.2.2.2.2.2.1 _ (by decide)

/-- C3 (amended): on a successful router-model load the failure counter
resets to 0, but `openUntil` is left unchanged rather than reset.  This is
observationally harmless: a load is only ever attempted while the circuit
is closed (`openUntil ≤ now`), so the retained `openUntil` value lies in
the past and the circuit remains closed afterwards. -/
theorem successful_load_resets_failure_count_only
    (st : CBState) (now : Nat) (fa : Bool)
    (hclosed : st.openUntil ≤ now) :
    (llmClassifyStep st now true false fa true).st = ⟨0, st.openUntil⟩ ∧
    (llmClassifyStep st now true false fa true).loadAttempted = true ∧
    (llmClassifyStep st now true false fa true).st.openUntil ≤ now ∧
    (∀ st' t ra rl fa' ls,
      (llmClassifyStep st' t ra rl fa' ls).loadAttempted = true → st'.openUntil ≤ t) := by
  have hn : ¬ now < st.openUntil := Nat.not_lt.mpr hclosed
  refine ⟨by simp [llmClassifyStep, hn], by simp [llmClassifyStep, hn],
    by simp [llmClassifyStep, hn]; exact hclosed, ?_⟩
  intro st' t ra rl fa' ls h
  by_contra hlt
  have hopen : t < st'.openUntil := Nat.not_le.mp hlt
  have := (step_while_open st' t hopen ra rl fa' ls).2.1
  rw [h] at this
  exact Bool.true_eq_false.mp this

/-- Witness for the amended C3 at a concrete state: a successful load at
time 400 from state ⟨2, 250⟩ yields state ⟨0, 250⟩. -/
theorem successful_load_resets_failure_count_only_witness :
    (llmClassifyStep ⟨2, 250⟩ 400 true false true true).st = (⟨0, 250⟩ : CBState) :=
  (successful_load_resets_failure_count_only ⟨2, 250⟩ 400 true (by decide)).1

/-- Counterexample to C3 as stated: in the reachable state obtained after
three load failures at times 10, 20, 30 (which opens the circuit until
330), a successful load at time 400 resets the failure counter to 0 but
leaves `openUntil` at its previous non-zero value 330 — the circuit-breaker
state is not "fully reset". -/
theorem successful_load_leaves_openUntil_counterexample :
    (runCalls ⟨0, 0⟩
      [⟨10, true, false, true, false⟩, ⟨20, true, false, true, false⟩,
       ⟨30, true, false, true, false⟩]).1 = (⟨3, 330⟩ : CBState) ∧
    (llmClassifyStep ⟨3, 330⟩ 400 true false true true).st = (⟨0, 330⟩ : CBState) ∧
    (330 : Nat) ≠ 0 := by
  decide

end Sena.Router

namespace Sena.ModelRegistry

/-!
## ModelRegistry (`src/llm/models/model_registry.py`)

`ModelRegistry` keeps `_models : dict[ModelType, ModelInfo]` where each
`ModelInfo` holds a client object.  Python object identity is modelled by a
heap: `infos` is an indexed store of `ModelInfo` objects and the slot map
associates each `ModelType` with a heap index; two slots reference the
same object exactly when they map to the same index.  The per-slot
`asyncio.Lock` objects carry no client state and are omitted.
-/

/-- Configuration of one model slot (`LLMModelConfig`). -/
structure ModelCfg where
  name : String
  maxTokens : Nat
  temperature : ℚ
  contextWindow : Nat
deriving DecidableEq, Repr

/-- Contents of one `ModelInfo` object, with the referenced client's
`is_loaded` flag inlined (`ModelInfo.__init__` plus `record_usage`
fields). -/
structure InfoData where
  cfg : ModelCfg
  clientLoaded : Bool
  lastUsed : Option Nat
  useCount : Nat
  totalTokens : Nat
  totalDurationMs : ℚ
deriving DecidableEq, Repr

/-- Registry state: the slot map `_models` (slot ↦ heap index), the heap of
`ModelInfo` objects, `_active_model` and `_last_switch`. -/
structure Registry where
  slots : List (Sena.MT × Nat)
  infos : List InfoData
  activeModel : Option Sena.MT
  lastSwitch : Option Nat
deriving DecidableEq, Repr

/-- Lookup in an association list keyed by model slot (dict read). -/
def assocFind {β : Type} : List (Sena.MT × β) → Sena.MT → Option β
  | [], _ => none
  | (k, v) :: rest, t => if k = t then some v else assocFind rest t

/-- Overwrite-or-add in an association list keyed by model slot
(dict assignment). -/
def assocSet {β : Type} : List (Sena.MT × β) → Sena.MT → β → List (Sena.MT × β)
  | [], t, v => [(t, v)]
  | (k, w) :: rest, t, v => if k = t then (t, v) :: rest else (k, w) :: assocSet rest t v

/-- Fresh `ModelInfo` as built by `ModelRegistry.register_model`: a new
client (not loaded), zeroed usage statistics. -/
def freshInfo (cfg : ModelCfg) : InfoData := ⟨cfg, false, none, 0, 0, 0⟩

/-- `ModelRegistry.register_model`: allocate a fresh `ModelInfo` (with a
fresh client) on the heap and point the slot at it. -/
def registerModel (r : Registry) (t : Sena.MT) (cfg : ModelCfg) : Registry :=
  { r with
    slots := assocSet r.slots t r.infos.length
    infos := r.infos ++ [freshInfo cfg] }

/-- Mark the client of the info object at heap index `i` as loaded
(the effect of `client.load()` succeeding). -/
def markLoaded (infos : List InfoData) (i : Nat) : List InfoData :=
  match infos.get? i with
  | some d => infos.set i { d with clientLoaded := true }
  | none => infos

/-- `ModelRegistry.get_client`: load the slot's client if necessary.  An
unregistered slot raises `LLMModelNotFoundError`, leaving the state
unchanged. -/
def getClientOp (r : Registry) (t : Sena.MT) : Registry :=
  match assocFind r.slots t with
  | some i => { r with infos := markLoaded r.infos i }
  | none => r

/-- `ModelRegistry.switch_to`: like `get_client` but also updates
`_active_model` and `_last_switch` under the switch lock. -/
def switchToOp (r : Registry) (t : Sena.MT) (now : Nat) : Registry :=
  match assocFind r.slots t with
  | some i =>
    { r with
      infos := markLoaded r.infos i
      activeModel := some t
      lastSwitch := some now }
  | none => r

/-- `ModelInfo.record_usage` applied through
`ModelRegistry.record_usage`. -/
def recordUsageOp (r : Registry) (t : Sena.MT) (tokens : Nat) (durationMs : ℚ) (now : Nat) :
    Registry :=
  match assocFind r.slots t with
  | some i =>
    match r.infos.get? i with
    | some d =>
      { r with
        infos := r.infos.set i
          { d with
            lastUsed := some now
            useCount := d.useCount + 1
            totalTokens := d.totalTokens + tokens
            totalDurationMs := d.totalDurationMs + durationMs } }
    | none => r
  | none => r

/-- Slot-registration order of `ModelRegistry.initialize`: every
`ModelType` in declaration order with `ROUTER` skipped. -/
def nonRouterTypes : List Sena.MT :=
  [Sena.MT.fast, Sena.MT.critical, Sena.MT.code, Sena.MT.reasoning]

/-- Registration loop of `ModelRegistry.initialize`: register each
non-router slot that appears in the configuration. -/
def registerConfigured (cfgs : List (Sena.MT × ModelCfg)) : Registry → List Sena.MT → Registry
  | r, [] => r
  | r, t :: ts =>
    match assocFind cfgs t with
    | some c => registerConfigured cfgs (registerModel r t c) ts
    | none => registerConfigured cfgs r ts

/-- Registry with nothing registered (`ModelRegistry.__init__`). -/
def emptyRegistry : Registry := ⟨[], [], none, none⟩

/-- `ModelRegistry.initialize`: register configured non-router slots, load
the fast slot via `switch_to`, then hard-interlock the router slot to the
fast slot's `ModelInfo` (same heap index = same object). -/
def initializeReg (cfgs : List (Sena.MT × ModelCfg)) (now : Nat) : Registry :=
  let r1 := registerConfigured cfgs emptyRegistry nonRouterTypes
  let r2 := if (assocFind r1.slots Sena.MT.fast).isSome then switchToOp r1 Sena.MT.fast now else r1
  match assocFind r2.slots Sena.MT.fast with
  | some i => { r2 with slots := assocSet r2.slots Sena.MT.router i }
  | none => r2

/-- State-changing registry operations available after initialization
(`get_stats` and `health_check` read state without modifying it;
`register_model` is only invoked from `initialize`). -/
inductive RegOp where
  | getClient (t : Sena.MT)
  | switchTo (t : Sena.MT) (now : Nat)
  | recordUsage (t : Sena.MT) (tokens : Nat) (durationMs : ℚ) (now : Nat)
deriving DecidableEq, Repr

/-- Apply one registry operation. -/
def applyRegOp (r : Registry) : RegOp → Registry
  | RegOp.getClient t => getClientOp r t
  | RegOp.switchTo t now => switchToOp r t now
  | RegOp.recordUsage t tok d now => recordUsageOp r t tok d now

/-- Apply a sequence of registry operations. -/
def applyRegOps (r : Registry) : List RegOp → Registry
  | [] => r
  | op :: ops => applyRegOps (applyRegOp r op) ops

/-- Reading the key just written by `assocSet`. -/
lemma assocFind_set_self {β : Type} (l : List (Sena.MT × β)) (t : Sena.MT) (v : β) :
    assocFind (assocSet l t v) t = some v := by
  induction l with
  | nil => simp [assocSet, assocFind]
  | cons p rest ih =>
    by_cases h : p.1 = t
    · simp [assocSet, assocFind, h]
    · simp [assocSet, assocFind, h, ih]

/-- `assocSet` does not disturb other keys. -/
lemma assocFind_set_other {β : Type} (l : List (Sena.MT × β)) (t t' : Sena.MT) (v : β)
    (h : t' ≠ t) : assocFind (assocSet l t v) t' = assocFind l t' := by
  induction l with
  | nil => simp [assocSet, assocFind, Ne.symm h]
  | cons p rest ih =>
    by_cases hp : p.1 = t
    · subst hp
      simp [assocSet, assocFind, h, Ne.symm h]
    · by_cases hp' : p.1 = t'
      · simp [assocSet, assocFind, hp, hp', h, Ne.symm h]
      · simp [assocSet, assocFind, hp, hp', ih]

/-- No post-initialization registry operation touches the slot map: loads,
switches, and usage recording mutate only the heap contents, the active
pointer, and the switch timestamp. -/
lemma applyRegOp_slots (r : Registry) (op : RegOp) : (applyRegOp r op).slots = r.slots := by
  cases op with
  | getClient t =>
    simp only [applyRegOp, getClientOp]
    cases assocFind r.slots t <;> rfl
  | switchTo t now =>
    simp only [applyRegOp, switchToOp]
    cases assocFind r.slots t <;> rfl
  | recordUsage t tok d now =>
    simp only [applyRegOp, recordUsageOp]
    cases assocFind r.slots t with
    | none => rfl
    | some i => cases h : r.infos[i]? <;> simp [h]

/-- Slot-map preservation extends to arbitrary operation sequences. -/
lemma applyRegOps_slots (r : Registry) (ops : List RegOp) :
    (applyRegOps r ops).slots = r.slots := by
  induction ops generalizing r with
  | nil => rfl
  | cons op ops ih => rw [applyRegOps, ih, applyRegOp_slots]

/-- Registration only adds or overwrites slot entries, so a slot that is
already registered stays registered through the registration loop. -/
lemma registerConfigured_preserves (cfgs : List (Sena.MT × ModelCfg)) (ts : List Sena.MT)
    (r : Registry) (t : Sena.MT) (h : (assocFind r.slots t).isSome) :
    (assocFind (registerConfigured cfgs r ts).slots t).isSome := by
  induction ts generalizing r with
  | nil => exact h
  | cons t' ts ih =>
    rw [registerConfigured]
    cases hc : assocFind cfgs t' with
    | none => exact ih r h
    | some c =>
      refine ih _ ?_
      by_cases ht : t = t'
      · subst ht
        simp [registerModel, assocFind_set_self]
      · simpa [registerModel, assocFind_set_other _ _ _ _ ht] using h

/-- `switch_to` leaves the slot map untouched. -/
lemma switchToOp_slots (r : Registry) (t : Sena.MT) (now : Nat) :
    (switchToOp r t now).slots = r.slots := by
  simp only [switchToOp]
  cases assocFind r.slots t <;> rfl

/-- C1: whenever the fast slot is configured, after
`ModelRegistry.initialize()` the router slot references exactly the
`ModelInfo` object (and hence the client) referenced by the fast slot, and
this shared identity is preserved by every subsequent registry operation
(`get_client`, `switch_to`, `record_usage`; `get_stats` and `health_check`
do not write state) until `shutdown`. -/
theorem router_slot_shares_fast_client
    (cfgs : List (Sena.MT × ModelCfg)) (now : Nat) (ops : List RegOp) (c : ModelCfg)
    (hfast : assocFind cfgs Sena.MT.fast = some c) :
    (assocFind (applyRegOps (initializeReg cfgs now) ops).slots Sena.MT.fast).isSome ∧
    assocFind (applyRegOps (initializeReg cfgs now) ops).slots Sena.MT.router =
      assocFind (applyRegOps (initializeReg cfgs now) ops).slots Sena.MT.fast := by
  rw [applyRegOps_slots]
  -- after the registration loop the fast slot is registered
  have hreg : (assocFind (registerConfigured cfgs emptyRegistry nonRouterTypes).slots
      Sena.MT.fast).isSome := by
    rw [nonRouterTypes, registerConfigured, hfast]
    refine registerConfigured_preserves cfgs _ _ _ ?_
    simp [registerModel, emptyRegistry, assocFind_set_self]
  rw [initializeReg]
  simp only [hreg, if_true]
  set r1 := registerConfigured cfgs emptyRegistry nonRouterTypes with hr1
  have hsw : (switchToOp r1 Sena.MT.fast now).slots = r1.slots := switchToOp_slots r1 _ now
  obtain ⟨i, hi⟩ := Option.isSome_iff_exists.mp hreg
  rw [hsw, hi]
  constructor
  · rw [assocFind_set_other _ _ _ _ (by intro h; cases h), hi]
    rfl
  · rw [assocFind_set_self, assocFind_set_other _ _ _ _ (by intro h; cases h), hi]

/-- Witness for C1: a one-slot configuration (only `fast`), initialization
at time 0 followed by a `get_client(router)`, a `switch_to(critical)`
(which raises) and a `record_usage(fast, …)`: the router and fast slots
still reference the same heap object. -/
theorem router_slot_shares_fast_client_witness :
    (assocFind (applyRegOps
        (initializeReg [(Sena.MT.fast, ⟨"llama3:8b", 2048, 7/10, 8192⟩)] 0)
        [RegOp.getClient Sena.MT.router, RegOp.switchTo Sena.MT.critical 5,
         RegOp.recordUsage Sena.MT.fast 100 250 9]).slots Sena.MT.fast).isSome ∧
    assocFind (applyRegOps
        (initializeReg [(Sena.MT.fast, ⟨"llama3:8b", 2048, 7/10, 8192⟩)] 0)
        [RegOp.getClient Sena.MT.router, RegOp.switchTo Sena.MT.critical 5,
         RegOp.recordUsage Sena.MT.fast 100 250 9]).slots Sena.MT.router =
      assocFind (applyRegOps
        (initializeReg [(Sena.MT.fast, ⟨"llama3:8b", 2048, 7/10, 8192⟩)] 0)
        [RegOp.getClient Sena.MT.router, RegOp.switchTo Sena.MT.critical 5,
         RegOp.recordUsage Sena.MT.fast 100 250 9]).slots Sena.MT.fast :=
  router_slot_shares_fast_client
    [(Sena.MT.fast, ⟨"llama3:8b", 2048, 7/10, 8192⟩)] 0
    [RegOp.getClient Sena.MT.router, RegOp.switchTo Sena.MT.critical 5,
     RegOp.recordUsage Sena.MT.fast 100 250 9]
    ⟨"llama3:8b", 2048, 7/10, 8192⟩ (by rfl)

end Sena.ModelRegistry

namespace Sena.ShortTerm

/-!
## ShortTermMemory (`src/memory/short_term.py`)

A per-session FIFO buffer with TTL.  `add` appends the new item with
`expires_at = now + ttl`, removes expired items, then pops the head once
if the buffer exceeds `max_messages`.  Wall-clock datetimes become a `Nat`
clock; the TTL is a single `Nat` duration (`ttl_hours` in clock units).
The string item id `f"short_{len}_{ts}"` carries no behaviour and is
modelled by the pre-append buffer length.
-/

/-- One buffered message (`MemoryItem`). -/
structure MemoryItem where
  id : Nat
  content : String
  role : String
  timestamp : Nat
  expiresAt : Option Nat
deriving DecidableEq, Repr

/-- Buffer state (`ShortTermMemory.__init__`). -/
structure ShortTermMemory where
  maxMessages : Nat
  ttl : Nat
  buffer : List MemoryItem
deriving DecidableEq, Repr

/-- `ShortTermMemory._cleanup_expired`: keep items with no expiry or with
`expires_at > now`. -/
def cleanupExpired (now : Nat) (buf : List MemoryItem) : List MemoryItem :=
  buf.filter (fun item =>
    match item.expiresAt with
    | none => true
    | some e => decide (now < e))

/-- `ShortTermMemory.add`: append, clean up expired items, then enforce the
capacity bound with a single `pop(0)`. -/
def addItem (st : ShortTermMemory) (now : Nat) (content role : String) :
    MemoryItem × ShortTermMemory :=
  let item : MemoryItem := ⟨st.buffer.length, content, role, now, some (now + st.ttl)⟩
  let buf1 := st.buffer ++ [item]
  let buf2 := cleanupExpired now buf1
  let buf3 := if st.maxMessages < buf2.length then buf2.tail else buf2
  (item, { st with buffer := buf3 })

/-- `ShortTermMemory.get_all`: clean up expired items and return the rest
in insertion order. -/
def getAllOp (st : ShortTermMemory) (now : Nat) : List MemoryItem × ShortTermMemory :=
  let buf := cleanupExpired now st.buffer
  (buf, { st with buffer := buf })

/-- `ShortTermMemory.clear`. -/
def clearOp (st : ShortTermMemory) : Nat × ShortTermMemory :=
  (st.buffer.length, { st with buffer := [] })

/-- Buffer-touching operations of `ShortTermMemory` (`get_by_role` and
`get_context` run the same cleanup as `get_all`; `get_stats` reads only). -/
inductive STOp where
  | add (now : Nat) (content role : String)
  | getAll (now : Nat)
  | clear
deriving DecidableEq, Repr

/-- Apply one short-term-memory operation. -/
def applySTOp (st : ShortTermMemory) : STOp → ShortTermMemory
  | STOp.add now c r => (addItem st now c r).2
  | STOp.getAll now => (getAllOp st now).2
  | STOp.clear => (clearOp st).2

/-- Apply a sequence of short-term-memory operations. -/
def applySTOps (st : ShortTermMemory) : List STOp → ShortTermMemory
  | [] => st
  | op :: ops => applySTOps (applySTOp st op) ops

/-- Operations never change the configured capacity. -/
lemma applySTOp_max (st : ShortTermMemory) (op : STOp) :
    (applySTOp st op).maxMessages = st.maxMessages := by
  cases op <;> rfl

/-- Single-step preservation of the capacity bound. -/
lemma applySTOp_length (st : ShortTermMemory) (op : STOp)
    (h : st.buffer.length ≤ st.maxMessages) :
    (applySTOp st op).buffer.length ≤ st.maxMessages := by
  cases op with
  | add now c r =>
    simp only [applySTOp, addItem]
    set buf2 := cleanupExpired now (st.buffer ++ [⟨st.buffer.length, c, r, now, some (now + st.ttl)⟩]) with hb
    have hlen2 : buf2.length ≤ st.maxMessages + 1 := by
      calc buf2.length ≤ (st.buffer ++ [(⟨st.buffer.length, c, r, now, some (now + st.ttl)⟩ : MemoryItem)]).length :=
            List.length_filter_le _ _
        _ = st.buffer.length + 1 := by simp
        _ ≤ st.maxMessages + 1 := by omega
    by_cases hc : st.maxMessages < buf2.length
    · simp only [hc, if_true]
      have := List.length_tail buf2
      omega
    · simp only [hc, if_false]
      omega
  | getAll now =>
    simp only [applySTOp, getAllOp]
    calc (cleanupExpired now st.buffer).length ≤ st.buffer.length := List.length_filter_le _ _
      _ ≤ st.maxMessages := h
  | clear => simp [applySTOp, clearOp]

/-- C7: (1) starting from an empty buffer, every sequence of operations
leaves at most `maxMessages` items in the buffer; (2) an `add` on a buffer
holding exactly `maxMessages ≥ 1` non-expired items (with a positive TTL)
evicts exactly the oldest item: the result is the old buffer minus its
head, plus the new item at the end, and the length is again
`maxMessages`. -/
theorem shortterm_capacity_and_fifo_eviction :
    (∀ (maxM ttl : Nat) (ops : List STOp),
      (applySTOps ⟨maxM, ttl, []⟩ ops).buffer.length ≤ maxM) ∧
    (∀ (st : ShortTermMemory) (now : Nat) (c r : String),
      1 ≤ st.ttl → 1 ≤ st.maxMessages → st.buffer.length = st.maxMessages →
      (∀ i ∈ st.buffer, ∃ e, i.expiresAt = some e ∧ now < e) →
      (addItem st now c r).2.buffer =
        st.buffer.tail ++ [⟨st.buffer.length, c, r, now, some (now + st.ttl)⟩] ∧
      (addItem st now c r).2.buffer.length = st.maxMessages) := by
  constructor
  · intro maxM ttl ops
    suffices hgen : ∀ (ops : List STOp) (st : ShortTermMemory),
        st.buffer.length ≤ st.maxMessages →
        (applySTOps st ops).buffer.length ≤ st.maxMessages by
      exact hgen ops ⟨maxM, ttl, []⟩ (Nat.zero_le _)
    intro ops
    induction ops with
    | nil => intro st h; exact h
    | cons op ops ih =>
      intro st h
      have h1 := applySTOp_length st op h
      have h2 := ih (applySTOp st op) (by rw [applySTOp_max]; exact h1)
      rw [applySTOp_max] at h2
      exact h2
  · intro st now c r httl hmax hlen hfresh
    have hclean : cleanupExpired now
        (st.buffer ++ [⟨st.buffer.length, c, r, now, some (now + st.ttl)⟩]) =
        st.buffer ++ [⟨st.buffer.length, c, r, now, some (now + st.ttl)⟩] := by
      rw [cleanupExpired, List.filter_eq_self]
      intro i hi
      rcases List.mem_append.mp hi with hold | hnew
      · obtain ⟨e, he, hlt⟩ := hfresh i hold
        simp [he, hlt]
      · have : i = ⟨st.buffer.length, c, r, now, some (now + st.ttl)⟩ := by
          simpa using hnew
        subst this
        simp
        omega
    have hover : st.maxMessages <
        (st.buffer ++ [(⟨st.buffer.length, c, r, now, some (now + st.ttl)⟩ : MemoryItem)]).length := by
      simp [hlen]
    have hne : st.buffer ≠ [] := by
      intro hnil
      rw [hnil] at hlen
      simp at hlen
      omega
    constructor
    · simp only [addItem, hclean, hover, if_true]
      exact List.tail_append_of_ne_nil hne
    · simp only [addItem, hclean, hover, if_true]
      rw [List.tail_append_of_ne_nil hne]
      simp
      omega

/-- Witness for C7: a buffer of capacity 2 holding two fresh items at time
5; adding a third evicts exactly the oldest. -/
theorem shortterm_capacity_and_fifo_eviction_witness :
    (applySTOps ⟨2, 10, []⟩ [STOp.add 0 "A" "user", STOp.add 1 "B" "user"]).buffer.length ≤ 2 ∧
    (addItem ⟨2, 10, [⟨0, "A", "user", 0, some 10⟩, ⟨1, "B", "user", 1, some 11⟩]⟩ 5 "C" "user").2.buffer =
      [⟨1, "B", "user", 1, some 11⟩, ⟨2, "C", "user", 5, some 15⟩] := by
  constructor
  · exact shortterm_capacity_and_fifo_eviction.1 2 10 _
  · have h := shortterm_capacity_and_fifo_eviction.2
      ⟨2, 10, [⟨0, "A", "user", 0, some 10⟩, ⟨1, "B", "user", 1, some 11⟩]⟩ 5 "C" "user"
      (by decide) (by decide) (by decide)
      (by
        intro i hi
        simp only [List.mem_cons, List.not_mem_nil, or_false] at hi
        rcases hi with h1 | h2
        · exact ⟨10, by rw [h1], by omega⟩
        · exact ⟨11, by rw [h2], by omega⟩)
    exact h.1

end Sena.ShortTerm

namespace Sena.Telemetry

/-!
## TelemetryCollector (`src/core/telemetry.py`)

`record_metric` appends a `MetricPoint` to `_buffer` (under the buffer
lock) and updates the in-memory aggregates.  `_flush_buffer` swaps the
buffer out under the lock, builds one bulk-insert row list, and runs a
single `execute_many`; if that raises, the exception is logged and the
swapped-out batch is discarded (it is not re-queued).  `shutdown` cancels
the flush task and performs one final `_flush_buffer`.  Float metric
values become `ℚ`; the database outcome of the bulk insert is the
explicit `insertOk` parameter.
-/

/-- One buffered metric (`MetricPoint`). -/
structure MetricPoint where
  name : String
  value : ℚ
  timestamp : Nat
  tags : List (String × String)
  metricType : String
deriving DecidableEq, Repr

/-- One `telemetry_metrics` table row, as built in `_flush_buffer`. -/
structure MetricRow where
  metricName : String
  metricValue : ℚ
  metricType : String
  tags : List (String × String)
  timestamp : Nat
deriving DecidableEq, Repr

/-- Row built from a buffered point by `_flush_buffer`. -/
def toRow (p : MetricPoint) : MetricRow :=
  ⟨p.name, p.value, p.metricType, p.tags, p.timestamp⟩

/-- Lookup in a string-keyed association list (dict read). -/
def dictFind {β : Type} : List (String × β) → String → Option β
  | [], _ => none
  | (k, v) :: rest, n => if k = n then some v else dictFind rest n

/-- Overwrite-or-add in a string-keyed association list (dict write). -/
def dictSet {β : Type} : List (String × β) → String → β → List (String × β)
  | [], n, v => [(n, v)]
  | (k, w) :: rest, n, v => if k = n then (n, v) :: rest else (k, w) :: dictSet rest n v

/-- Collector state: `telemetry.enabled`, the unflushed `_buffer`, the
`telemetry_metrics` table, and the in-memory aggregates `_counters`,
`_gauges`, `_histograms`. -/
structure TelState where
  enabled : Bool
  buffer : List MetricPoint
  db : List MetricRow
  counters : List (String × ℚ)
  gauges : List (String × ℚ)
  histograms : List (String × List ℚ)
deriving DecidableEq, Repr

/-- `TelemetryCollector.record_metric`: no-op when telemetry is disabled;
otherwise buffer the point and update the per-kind in-memory aggregate
(counters add, gauges overwrite, histograms append capped at the last
1000 samples). -/
def recordMetric (st : TelState) (name : String) (value : ℚ) (ts : Nat)
    (tags : List (String × String)) (metricType : String) : TelState :=
  if !st.enabled then st
  else
    let st1 := { st with buffer := st.buffer ++ [⟨name, value, ts, tags, metricType⟩] }
    if metricType = "counter" then
      { st1 with counters := dictSet st1.counters name ((dictFind st1.counters name).getD 0 + value) }
    else if metricType = "gauge" then
      { st1 with gauges := dictSet st1.gauges name value }
    else if metricType = "histogram" then
      let cur := (dictFind st1.histograms name).getD []
      let appended := cur ++ [value]
      let capped := if 1000 < appended.length then appended.drop (appended.length - 1000) else appended
      { st1 with histograms := dictSet st1.histograms name capped }
    else st1

/-- `TelemetryCollector._flush_buffer`: swap the buffer for an empty one,
then bulk-insert the swapped-out batch; on a raised insert error the batch
is logged and dropped.  `insertOk` is whether `execute_many` succeeds. -/
def flushBuffer (insertOk : Bool) (st : TelState) : TelState :=
  if st.buffer = [] then st
  else
    { st with
      buffer := []
      db := if insertOk then st.db ++ st.buffer.map toRow else st.db }

/-- `TelemetryCollector.shutdown`: cancel the flush task (no state effect
here) and run one final flush. -/
def shutdownTel (insertOk : Bool) (st : TelState) : TelState :=
  flushBuffer insertOk st

/-- C9 (amended): with telemetry enabled, every `record_metric` call puts
its point into the unflushed buffer; the next flush (periodic or the final
shutdown flush) includes the whole buffer in its single bulk-insert batch.
If that bulk insert succeeds, every buffered point — the recorded one
included — becomes a table row; if it fails, the entire batch is dropped
with a logged warning (the buffer is emptied and the table is unchanged),
so a metric caught in a failed flush is lost rather than retried. -/
theorem recorded_metric_flush_fate
    (st : TelState) (name : String) (value : ℚ) (ts : Nat)
    (tags : List (String × String)) (metricType : String)
    (hen : st.enabled = true) :
    (⟨name, value, ts, tags, metricType⟩ : MetricPoint) ∈
      (recordMetric st name value ts tags metricType).buffer ∧
    toRow ⟨name, value, ts, tags, metricType⟩ ∈
      (flushBuffer true (recordMetric st name value ts tags metricType)).db ∧
    (∀ p ∈ (recordMetric st name value ts tags metricType).buffer,
      toRow p ∈ (flushBuffer true (recordMetric st name value ts tags metricType)).db) ∧
    (flushBuffer false (recordMetric st name value ts tags metricType)).buffer = [] ∧
    (flushBuffer false (recordMetric st name value ts tags metricType)).db = st.db := by
  have hbuf : (recordMetric st name value ts tags metricType).buffer =
      st.buffer ++ [⟨name, value, ts, tags, metricType⟩] := by
    rw [recordMetric]
    simp only [hen, Bool.not_true, Bool.false_eq_true, if_false]
    by_cases h1 : metricType = "counter"
    · simp [h1]
    · by_cases h2 : metricType = "gauge"
      · simp [h1, h2]
      · by_cases h3 : metricType = "histogram"
        · simp [h1, h2, h3]
        · simp [h1, h2, h3]
  have hdb : (recordMetric st name value ts tags metricType).db = st.db := by
    rw [recordMetric]
    simp only [hen, Bool.not_true, Bool.false_eq_true, if_false]
    by_cases h1 : metricType = "counter"
    · simp [h1]
    · by_cases h2 : metricType = "gauge"
      · simp [h1, h2]
      · by_cases h3 : metricType = "histogram"
        · simp [h1, h2, h3]
        · simp [h1, h2, h3]
  have hmem : (⟨name, value, ts, tags, metricType⟩ : MetricPoint) ∈
      (recordMetric st name value ts tags metricType).buffer := by
    rw [hbuf]
    exact List.mem_append_right _ (List.mem_singleton.mpr rfl)
  have hne : (recordMetric st name value ts tags metricType).buffer ≠ [] :=
    List.ne_nil_of_mem hmem
  refine ⟨hmem, ?_, ?_, ?_, ?_⟩
  · rw [flushBuffer, if_neg hne]
    exact List.mem_append_right _ (List.mem_map_of_mem toRow hmem)
  · intro p hp
    rw [flushBuffer, if_neg hne]
    exact List.mem_append_right _ (List.mem_map_of_mem toRow hp)
  · rw [flushBuffer, if_neg hne]
  · rw [flushBuffer, if_neg hne]
    simp [hdb]

/-- Witness for the amended C9: one counter metric recorded into an empty
enabled collector; a successful flush writes its row, a failed flush drops
the batch. -/
theorem recorded_metric_flush_fate_witness :
    toRow ⟨"requests.total", 1, 3, [], "counter"⟩ ∈
      (flushBuffer true (recordMetric ⟨true, [], [], [], [], []⟩ "requests.total" 1 3 [] "counter")).db ∧
    (flushBuffer false (recordMetric ⟨true, [], [], [], [], []⟩ "requests.total" 1 3 [] "counter")).db = [] := by
  have h := recorded_metric_flush_fate ⟨true, [], [], [], [], []⟩ "requests.total" 1 3 [] "counter" rfl
  exact ⟨h.2.1, h.2.2.2.2⟩

/-- Counterexample to C9 as stated: with telemetry enabled, record one
metric and let the next flush's bulk insert fail.  The batch is dropped:
the table has no row for the metric, the buffer is empty, and even a
subsequent successful (final) flush writes nothing — the recorded metric
never results in a row. -/
theorem failed_flush_drops_metrics_counterexample :
    (flushBuffer false (recordMetric ⟨true, [], [], [], [], []⟩ "x" 1 0 [] "counter")).db = [] ∧
    (flushBuffer false (recordMetric ⟨true, [], [], [], [], []⟩ "x" 1 0 [] "counter")).buffer = [] ∧
    (shutdownTel true
      (flushBuffer false (recordMetric ⟨true, [], [], [], [], []⟩ "x" 1 0 [] "counter"))).db = [] := by
  decide

end Sena.Telemetry

namespace Sena.Personality

/-!
## PersonalityManager (`src/memory/personality.py`) and
## PersonalityRepository (`src/database/repositories/personality_repo.py`)

Fragments live in the `personality_fragments` table; every change appends
to the append-only `personality_audit` table.  UUIDs become sequential
`Nat` ids, `datetime.now()` becomes a `Nat` clock bumped on every write.
The repository's `update_fragment` issues an UPDATE and returns `True`
without inspecting the affected row count, which is what makes repeated
approval succeed.  The LLM call and JSON parsing inside
`infer_from_conversation` are upstream of the state change; the model
takes the already-parsed candidate list as input.  Database exceptions
are outside the model.
-/

/-- `fragment_type` column: "explicit" or "inferred". -/
inductive FType where
  | explicit
  | inferred
deriving DecidableEq, Repr

/-- `status` column: "pending", "approved" or "rejected". -/
inductive FStatus where
  | pending
  | approved
  | rejected
deriving DecidableEq, Repr

/-- One `personality_fragments` row. -/
structure Fragment where
  fragId : Nat
  content : String
  ftype : FType
  category : Option String
  confidence : ℚ
  status : FStatus
  source : Option String
  version : Nat
  createdAt : Nat
  updatedAt : Nat
  approvedAt : Option Nat
  metadata : List (String × String)
deriving DecidableEq, Repr

/-- One `personality_audit` row. -/
structure AuditEntry where
  fragId : Nat
  action : String
  oldContent : Option String
  newContent : Option String
  oldStatus : Option FStatus
  newStatus : Option FStatus
  confidence : Option ℚ
  reason : Option String
  timestamp : Nat
deriving DecidableEq, Repr

/-- Personality store state: the two tables, the manager's block-cache
dirty flag, a write clock, and the UUID source. -/
structure PMState where
  fragments : List Fragment
  audit : List AuditEntry
  cacheDirty : Bool
  clock : Nat
  nextId : Nat
deriving DecidableEq, Repr

/-- State after `PersonalityManager.initialize` with empty tables
(`_cache_dirty` starts true). -/
def initPM : PMState := ⟨[], [], true, 0, 0⟩

/-- `PersonalityRepository.create_fragment`: INSERT with `version = 1` and
`approved_at` left NULL (the INSERT never sets it, whatever the initial
status). -/
def createFragment (st : PMState) (content : String) (ftype : FType)
    (category : Option String) (confidence : ℚ) (status : FStatus)
    (source : Option String) (metadata : List (String × String)) : Fragment × PMState :=
  let f : Fragment :=
    ⟨st.nextId, content, ftype, category, confidence, status, source, 1,
      st.clock, st.clock, none, metadata⟩
  (f, { st with fragments := st.fragments ++ [f], nextId := st.nextId + 1, clock := st.clock + 1 })

/-- `PersonalityRepository.get_by_id` (`_get_by_fragment_id`). -/
def findFragment (st : PMState) (fid : Nat) : Option Fragment :=
  st.fragments.find? (fun f => f.fragId == fid)

/-- Row transformation of one `UPDATE personality_fragments` statement:
only the supplied fields change, `updated_at` is always restamped, and
`approved_at` is stamped exactly when the new status is "approved". -/
def updateRow (now : Nat) (content? : Option String) (status? : Option FStatus)
    (category? : Option String) (confidence? : Option ℚ)
    (metadata? : Option (List (String × String))) (f : Fragment) : Fragment :=
  { f with
    updatedAt := now
    content := content?.getD f.content
    status := status?.getD f.status
    approvedAt := if status? = some FStatus.approved then some now else f.approvedAt
    category := (category?.map some).getD f.category
    confidence := confidence?.getD f.confidence
    metadata := metadata?.getD f.metadata }

/-- `PersonalityRepository.update_fragment`: UPDATE … WHERE fragment_id =
?, then return `True` — the affected row count is never inspected, so the
call reports success even when it matched zero rows or changed nothing. -/
def updateFragment (st : PMState) (fid : Nat) (content? : Option String)
    (status? : Option FStatus) (category? : Option String) (confidence? : Option ℚ)
    (metadata? : Option (List (String × String))) : Bool × PMState :=
  (true,
    { st with
      fragments := st.fragments.map (fun f =>
        if f.fragId == fid then updateRow st.clock content? status? category? confidence? metadata? f
        else f)
      clock := st.clock + 1 })

/-- `PersonalityRepository.approve_fragment`. -/
def repoApprove (st : PMState) (fid : Nat) : Bool × PMState :=
  updateFragment st fid none (some FStatus.approved) none none none

/-- `PersonalityRepository.reject_fragment`. -/
def repoReject (st : PMState) (fid : Nat) : Bool × PMState :=
  updateFragment st fid none (some FStatus.rejected) none none none

/-- `PersonalityRepository.write_audit`: append-only INSERT into
`personality_audit`. -/
def writeAudit (st : PMState) (fid : Nat) (action : String)
    (oldContent newContent : Option String) (oldStatus newStatus : Option FStatus)
    (confidence : Option ℚ) (reason : Option String) : PMState :=
  { st with
    audit := st.audit ++ [⟨fid, action, oldContent, newContent, oldStatus, newStatus, confidence, reason, st.clock⟩]
    clock := st.clock + 1 }

/-- `PersonalityManager.store_explicit`: create with kind=explicit,
status=approved, confidence=1.0; audit `explicit_stored`; invalidate the
block cache. -/
def storeExplicit (st : PMState) (content : String) (category : Option String)
    (source : Option String) (metadata : List (String × String)) : Fragment × PMState :=
  let r := createFragment st content FType.explicit category 1 FStatus.approved source metadata
  let st2 := writeAudit r.2 r.1.fragId "explicit_stored" none (some content) none
    (some FStatus.approved) (some 1) (some "User explicitly stated this fact")
  (r.1, { st2 with cacheDirty := true })

/-- `PersonalityManager.approve_fragment`: look the fragment up, run the
repository approval, and on (unconditional) success append an `approved`
audit entry and invalidate the cache. -/
def approveFragment (st : PMState) (fid : Nat) (reason : Option String) : Bool × PMState :=
  match findFragment st fid with
  | none => (false, st)
  | some f =>
    let r := repoApprove st fid
    if r.1 then
      let st2 := writeAudit r.2 fid "approved" (some f.content) (some f.content)
        (some f.status) (some FStatus.approved) (some f.confidence)
        (some (reason.getD "User approved"))
      (true, { st2 with cacheDirty := true })
    else (false, r.2)

/-- `PersonalityManager.reject_fragment`: as approval but with status
"rejected" and no cache invalidation (rejected fragments never appear in
the block). -/
def rejectFragment (st : PMState) (fid : Nat) (reason : Option String) : Bool × PMState :=
  match findFragment st fid with
  | none => (false, st)
  | some f =>
    let r := repoReject st fid
    if r.1 then
      (true, writeAudit r.2 fid "rejected" (some f.content) (some f.content)
        (some f.status) (some FStatus.rejected) (some f.confidence)
        (some (reason.getD "User rejected")))
    else (false, r.2)

/-- `PersonalityManager.edit_and_approve`: update content and status
together, audit `edited_and_approved`, invalidate the cache. -/
def editAndApprove (st : PMState) (fid : Nat) (newContent : String)
    (reason : Option String) : Bool × PMState :=
  match findFragment st fid with
  | none => (false, st)
  | some f =>
    let r := updateFragment st fid (some newContent) (some FStatus.approved) none none none
    if r.1 then
      let st2 := writeAudit r.2 fid "edited_and_approved" (some f.content) (some newContent)
        (some f.status) (some FStatus.approved) (some f.confidence)
        (some (reason.getD "User edited and approved"))
      (true, { st2 with cacheDirty := true })
    else (false, r.2)

/-- `PersonalityManager.delete_fragment`: hard DELETE plus a `deleted`
audit entry and cache invalidation. -/
def deleteFragment (st : PMState) (fid : Nat) : Bool × PMState :=
  match findFragment st fid with
  | none => (false, st)
  | some f =>
    let st1 := { st with
      fragments := st.fragments.filter (fun g => !(g.fragId == fid))
      clock := st.clock + 1 }
    let st2 := writeAudit st1 fid "deleted" (some f.content) none (some f.status) none
      none (some "User deleted fragment")
    (true, { st2 with cacheDirty := true })

/-- Parsed inference candidate (`{content, confidence, category}` after
`_parse_inference_response`). -/
structure Candidate where
  content : String
  confidence : ℚ
  category : String
deriving DecidableEq, Repr

/-- Personality settings slice read by the manager
(`PersonalityConfig` in `src/config/settings.py`). -/
structure PCfg where
  inferentialLearningEnabled : Bool
  inferentialLearningRequiresApproval : Bool
  autoApproveEnabled : Bool
  autoApproveThreshold : ℚ
deriving DecidableEq, Repr

/-- `PersonalityManager._decide_initial_status`. -/
def decideInitialStatus (confidence : ℚ) (cfg : PCfg) : FStatus :=
  if cfg.autoApproveEnabled = true ∧ cfg.inferentialLearningRequiresApproval = false ∧
      cfg.autoApproveThreshold ≤ confidence
  then FStatus.approved
  else FStatus.pending

/-- Candidate-processing loop of
`PersonalityManager.infer_from_conversation`: strip the content, skip
empty or low-confidence candidates, persist survivors as kind=inferred
with the decided status, audit `inferred`, and invalidate the cache for
each auto-approved fragment. -/
def inferLoop (cfg : PCfg) (source : Option String) : PMState → List Candidate → List Fragment × PMState
  | st, [] => ([], st)
  | st, c :: cs =>
    let content := Sena.pyStrip c.content
    if content = "" ∨ c.confidence < mkRat 1 2 then inferLoop cfg source st cs
    else
      let status := decideInitialStatus c.confidence cfg
      let r := createFragment st content FType.inferred (some c.category) c.confidence status
        source [("inferred_at", "now")]
      let st2 := writeAudit r.2 r.1.fragId "inferred" none (some content) none (some status)
        (some c.confidence) (some "LLM inference")
      let st3 := if status = FStatus.approved then { st2 with cacheDirty := true } else st2
      let rest := inferLoop cfg source st3 cs
      (r.1 :: rest.1, rest.2)

/-- `PersonalityManager.infer_from_conversation` from the point where the
candidate list has been parsed; returns the created fragments.  When
inferential learning is disabled nothing is created. -/
def inferFromConversation (st : PMState) (cfg : PCfg) (cands : List Candidate)
    (source : Option String) : List Fragment × PMState :=
  if cfg.inferentialLearningEnabled = false then ([], st)
  else inferLoop cfg source st cands

/-- Survival condition of the candidate loop: non-empty stripped content
and confidence at least 0.5. -/
def survives (c : Candidate) : Prop :=
  ¬(Sena.pyStrip c.content = "" ∨ c.confidence < mkRat 1 2)

instance (c : Candidate) : Decidable (survives c) := by
  unfold survives
  infer_instance

/-- Characterization of the candidate loop: every created fragment is an
inferred fragment whose status is `decideInitialStatus` of its own
confidence, and the created (content, confidence) pairs are exactly those
of the surviving candidates in order. -/
lemma inferLoop_created (cfg : PCfg) (src : Option String) :
    ∀ (cands : List Candidate) (st : PMState),
      (∀ f ∈ (inferLoop cfg src st cands).1,
        f.ftype = FType.inferred ∧ f.status = decideInitialStatus f.confidence cfg) ∧
      (inferLoop cfg src st cands).1.map (fun f => (f.content, f.confidence)) =
        (cands.filter (fun c => decide (survives c))).map (fun c => (Sena.pyStrip c.content, c.confidence)) := by
  intro cands
  induction cands with
  | nil =>
    intro st
    exact ⟨fun f hf => absurd hf (List.not_mem_nil f), by simp [inferLoop]⟩
  | cons c cs ih =>
    intro st
    by_cases hc : Sena.pyStrip c.content = "" ∨ c.confidence < mkRat 1 2
    · have hsurv : ¬ survives c := fun h => h hc
      constructor
      · intro f hf
        rw [inferLoop, if_pos hc] at hf
        exact ((ih st).1) f hf
      · rw [inferLoop, if_pos hc]
        rw [List.filter_cons_of_neg (by simpa using hsurv)]
        exact (ih st).2
    · have hsurv : survives c := hc
      constructor
      · intro f hf
        rw [inferLoop, if_neg hc] at hf
        rcases List.mem_cons.mp hf with hf0 | hfr
        · subst hf0
          exact ⟨rfl, rfl⟩
        · exact ((ih _).1) f hfr
      · rw [inferLoop, if_neg hc]
        rw [List.filter_cons_of_pos (by simpa using hsurv)]
        simp only [List.map_cons, List.cons.injEq]
        exact ⟨rfl, (ih _).2⟩

/-- C6: with inferential learning enabled, every fragment persisted by
`infer_from_conversation` is inferred and its initial status is
`approved` if and only if `autoApproveEnabled` is true AND
`inferentialLearningRequiresApproval` is false AND its confidence is at
least `autoApproveThreshold`; otherwise it is `pending`.  Moreover the
persisted (content, confidence) pairs are exactly the surviving
candidates (non-blank stripped content, confidence ≥ 0.5) in order. -/
theorem infer_initial_status_policy (st : PMState) (cfg : PCfg)
    (cands : List Candidate) (src : Option String)
    (hen : cfg.inferentialLearningEnabled = true) :
    (∀ f ∈ (inferFromConversation st cfg cands src).1,
      f.ftype = FType.inferred ∧
      (f.status = FStatus.approved ↔
        (cfg.autoApproveEnabled = true ∧ cfg.inferentialLearningRequiresApproval = false ∧
          cfg.autoApproveThreshold ≤ f.confidence)) ∧
      (f.status = FStatus.approved ∨ f.status = FStatus.pending)) ∧
    (inferFromConversation st cfg cands src).1.map (fun f => (f.content, f.confidence)) =
      (cands.filter (fun c => decide (survives c))).map (fun c => (Sena.pyStrip c.content, c.confidence)) := by
  have hne : ¬ cfg.inferentialLearningEnabled = false := by rw [hen]; exact Bool.true_eq_false ▸ (by simp)
  have hloop := inferLoop_created cfg src cands st
  constructor
  · intro f hf
    rw [inferFromConversation, if_neg hne] at hf
    obtain ⟨hty, hstat⟩ := hloop.1 f hf
    refine ⟨hty, ?_, ?_⟩
    · rw [hstat, decideInitialStatus]
      by_cases hcond : cfg.autoApproveEnabled = true ∧
          cfg.inferentialLearningRequiresApproval = false ∧ cfg.autoApproveThreshold ≤ f.confidence
      · simp [hcond]
      · simp only [hcond, if_false, iff_false]
        exact fun h => by cases h
    · rw [hstat, decideInitialStatus]
      by_cases hcond : cfg.autoApproveEnabled = true ∧
          cfg.inferentialLearningRequiresApproval = false ∧ cfg.autoApproveThreshold ≤ f.confidence
      · simp [hcond]
      · simp [hcond]
  · rw [inferFromConversation, if_neg hne]
    exact hloop.2

/-- Witness for C6 at the spec's scenario 5: auto-approve enabled with
threshold 0.85 and approval not required; candidates with confidences 0.95
and 0.70 yield one approved and one pending fragment. -/
theorem infer_initial_status_policy_witness :
    (∀ f ∈ (inferFromConversation initPM ⟨true, false, true, mkRat 17 20⟩
        [⟨"The user prefers dark mode", mkRat 19 20, "preference"⟩,
         ⟨"The user works remotely", mkRat 7 10, "fact"⟩] (some "conversation_extraction")).1,
      f.ftype = FType.inferred ∧
      (f.status = FStatus.approved ↔
        (true = true ∧ false = false ∧ mkRat 17 20 ≤ f.confidence)) ∧
      (f.status = FStatus.approved ∨ f.status = FStatus.pending)) ∧
    (inferFromConversation initPM ⟨true, false, true, mkRat 17 20⟩
        [⟨"The user prefers dark mode", mkRat 19 20, "preference"⟩,
         ⟨"The user works remotely", mkRat 7 10, "fact"⟩] (some "conversation_extraction")).1.map
      (fun f => (f.content, f.confidence)) =
      [("The user prefers dark mode", mkRat 19 20), ("The user works remotely", mkRat 7 10)] := by
  have h := infer_initial_status_policy initPM ⟨true, false, true, mkRat 17 20⟩
    [⟨"The user prefers dark mode", mkRat 19 20, "preference"⟩,
     ⟨"The user works remotely", mkRat 7 10, "fact"⟩] (some "conversation_extraction") rfl
  refine ⟨h.1, ?_⟩
  rw [h.2]
  decide

/-- Number of audit rows for fragment `fid` with a given action label. -/
def auditCount (st : PMState) (fid : Nat) (action : String) : Nat :=
  (st.audit.filter (fun a => a.fragId == fid && a.action == action)).length

/-- Resolution of `approveFragment` (with the default reason) when the
fragment exists. -/
lemma approveFragment_found (st : PMState) (fid : Nat)
    (f : Fragment) (hf : findFragment st fid = some f) :
    approveFragment st fid none =
      (true,
        { fragments := st.fragments.map (fun g =>
            if g.fragId == fid then updateRow st.clock none (some FStatus.approved) none none none g
            else g)
          audit := st.audit ++ [⟨fid, "approved", some f.content, some f.content, some f.status,
            some FStatus.approved, some f.confidence, some "User approved", st.clock + 1⟩]
          cacheDirty := true
          clock := st.clock + 2
          nextId := st.nextId }) := by
  rw [approveFragment, hf]
  rfl

/-- `updateFragment` commutes with `findFragment` on the updated id: the
looked-up row is the updated row. -/
lemma findFragment_map_update (fragments : List Fragment) (fid : Nat) (now : Nat)
    (content? : Option String) (status? : Option FStatus) (category? : Option String)
    (confidence? : Option ℚ) (metadata? : Option (List (String × String))) :
    (fragments.map (fun g =>
        if g.fragId == fid then updateRow now content? status? category? confidence? metadata? g
        else g)).find? (fun f => f.fragId == fid) =
      (fragments.find? (fun f => f.fragId == fid)).map
        (updateRow now content? status? category? confidence? metadata?) := by
  induction fragments with
  | nil => rfl
  | cons g gs ih =>
    cases hbeq : (g.fragId == fid) with
    | true =>
      have hhead : (if g.fragId == fid then
          updateRow now content? status? category? confidence? metadata? g else g) =
          updateRow now content? status? category? confidence? metadata? g := if_pos hbeq
      have hupd : ((updateRow now content? status? category? confidence? metadata? g).fragId == fid) = true := by
        simp only [updateRow]
        exact hbeq
      rw [List.map_cons, hhead]
      simp only [List.find?_cons]
      rw [hupd, hbeq]
      rfl
    | false =>
      have hhead : (if g.fragId == fid then
          updateRow now content? status? category? confidence? metadata? g else g) = g :=
        if_neg (by simp [hbeq])
      rw [List.map_cons, hhead]
      simp only [List.find?_cons]
      rw [hbeq]
      exact ih

/-- C4 (amended): approving an existing fragment twice in succession
succeeds both times and leaves the fragment approved (the fragment state
is idempotent apart from restamped timestamps), but the second call is not
a no-op: `PersonalityRepository.update_fragment` returns `True`
unconditionally, so each call appends its own `action=approved` audit row
— after the two calls exactly two more such rows exist than before. -/
theorem approve_twice_appends_two_audit_rows (st : PMState) (fid : Nat) (f : Fragment)
    (hf : findFragment st fid = some f) :
    (approveFragment st fid none).1 = true ∧
    (approveFragment (approveFragment st fid none).2 fid none).1 = true ∧
    (∃ g, findFragment (approveFragment (approveFragment st fid none).2 fid none).2 fid = some g ∧
      g.status = FStatus.approved ∧ g.content = f.content ∧ g.confidence = f.confidence) ∧
    auditCount (approveFragment (approveFragment st fid none).2 fid none).2 fid "approved" =
      auditCount st fid "approved" + 2 := by
  have h1 := approveFragment_found st fid f hf
  set st1 := (approveFragment st fid none).2 with hst1
  have hfrag1 : st1.fragments = st.fragments.map (fun g =>
      if g.fragId == fid then updateRow st.clock none (some FStatus.approved) none none none g
      else g) := by rw [hst1, h1]
  have hfind1 : findFragment st1 fid =
      some (updateRow st.clock none (some FStatus.approved) none none none f) := by
    rw [findFragment, hfrag1, findFragment_map_update, ← findFragment, hf]
    rfl
  have h2 := approveFragment_found st1 fid _ hfind1
  have hfind2 : findFragment (approveFragment st1 fid none).2 fid =
      some (updateRow st1.clock none (some FStatus.approved) none none none
        (updateRow st.clock none (some FStatus.approved) none none none f)) := by
    have hfrag2 : (approveFragment st1 fid none).2.fragments = st1.fragments.map (fun g =>
        if g.fragId == fid then updateRow st1.clock none (some FStatus.approved) none none none g
        else g) := by rw [h2]
    rw [findFragment, hfrag2, findFragment_map_update, ← findFragment, hfind1]
    rfl
  refine ⟨by rw [h1], by rw [h2], ?_, ?_⟩
  · refine ⟨_, hfind2, rfl, rfl, rfl⟩
  · have haud1 : st1.audit = st.audit ++ [⟨fid, "approved", some f.content, some f.content,
        some f.status, some FStatus.approved, some f.confidence, some "User approved",
        st.clock + 1⟩] := by rw [hst1, h1]
    have haud2 : (approveFragment st1 fid none).2.audit = st1.audit ++ [⟨fid, "approved",
        some (updateRow st.clock none (some FStatus.approved) none none none f).content,
        some (updateRow st.clock none (some FStatus.approved) none none none f).content,
        some (updateRow st.clock none (some FStatus.approved) none none none f).status,
        some FStatus.approved,
        some (updateRow st.clock none (some FStatus.approved) none none none f).confidence,
        some "User approved", st1.clock + 1⟩] := by rw [h2]
    rw [auditCount, haud2, haud1]
    simp [auditCount, List.filter_append]

/-- Witness for the amended C4: a pending inferred fragment approved
twice; both calls succeed, the fragment ends approved, and two
`action=approved` audit rows exist. -/
theorem approve_twice_appends_two_audit_rows_witness :
    (approveFragment ((inferFromConversation initPM ⟨true, true, true, mkRat 17 20⟩
        [⟨"User works remotely", mkRat 7 10, "fact"⟩] (some "conversation_extraction")).2)
        0 none).1 = true ∧
    auditCount (approveFragment
        (approveFragment ((inferFromConversation initPM ⟨true, true, true, mkRat 17 20⟩
          [⟨"User works remotely", mkRat 7 10, "fact"⟩] (some "conversation_extraction")).2)
          0 none).2 0 none).2 0 "approved" =
      auditCount ((inferFromConversation initPM ⟨true, true, true, mkRat 17 20⟩
        [⟨"User works remotely", mkRat 7 10, "fact"⟩] (some "conversation_extraction")).2)
        0 "approved" + 2 := by
  have h := approve_twice_appends_two_audit_rows
    ((inferFromConversation initPM ⟨true, true, true, mkRat 17 20⟩
      [⟨"User works remotely", mkRat 7 10, "fact"⟩] (some "conversation_extraction")).2)
    0
    ⟨0, "User works remotely", FType.inferred, some "fact", mkRat 7 10, FStatus.pending,
      some "conversation_extraction", 1, 0, 0, none, [("inferred_at", "now")]⟩
    (by decide)
  exact ⟨h.1, h.2.2.2⟩

/-- Counterexample to C4 as stated: create one pending inferred fragment
and approve it twice.  The second call returns `true` (not `false`), it is
not a no-op (the state differs from the state after the first call —
a fresh audit row was appended), and two audit rows with
`action=approved` exist for the fragment instead of exactly one. -/
theorem approve_twice_counterexample :
    (approveFragment (approveFragment ((inferFromConversation initPM ⟨true, true, true, mkRat 17 20⟩
        [⟨"User works remotely", mkRat 7 10, "fact"⟩] (some "conversation_extraction")).2)
        0 none).2 0 none).1 = true ∧
    (approveFragment (approveFragment ((inferFromConversation initPM ⟨true, true, true, mkRat 17 20⟩
        [⟨"User works remotely", mkRat 7 10, "fact"⟩] (some "conversation_extraction")).2)
        0 none).2 0 none).2 ≠
      (approveFragment ((inferFromConversation initPM ⟨true, true, true, mkRat 17 20⟩
        [⟨"User works remotely", mkRat 7 10, "fact"⟩] (some "conversation_extraction")).2)
        0 none).2 ∧
    auditCount (approveFragment (approveFragment
        ((inferFromConversation initPM ⟨true, true, true, mkRat 17 20⟩
          [⟨"User works remotely", mkRat 7 10, "fact"⟩] (some "conversation_extraction")).2)
        0 none).2 0 none).2 0 "approved" = 2 ∧ (2 : Nat) ≠ 1 := by
  decide

/-- Public fragment-mutating operations of the `PersonalityManager`
(`get_personality_block` and the query methods read without mutating the
tables). -/
inductive PMOp where
  | store (content : String) (category : Option String) (source : Option String)
      (metadata : List (String × String))
  | infer (cfg : PCfg) (cands : List Candidate) (source : Option String)
  | approve (fid : Nat) (reason : Option String)
  | reject (fid : Nat) (reason : Option String)
  | editApprove (fid : Nat) (newContent : String) (reason : Option String)
  | delete (fid : Nat)
deriving DecidableEq, Repr

/-- Apply one manager operation. -/
def applyPMOp (st : PMState) : PMOp → PMState
  | PMOp.store c cat src m => (storeExplicit st c cat src m).2
  | PMOp.infer cfg cands src => (inferFromConversation st cfg cands src).2
  | PMOp.approve fid r => (approveFragment st fid r).2
  | PMOp.reject fid r => (rejectFragment st fid r).2
  | PMOp.editApprove fid c r => (editAndApprove st fid c r).2
  | PMOp.delete fid => (deleteFragment st fid).2

/-- Apply a sequence of manager operations. -/
def applyPMOps (st : PMState) : List PMOp → PMState
  | [] => st
  | op :: ops => applyPMOps (applyPMOp st op) ops

/-- Recognizer for `reject_fragment` operations. -/
def isRejectOp : PMOp → Bool
  | PMOp.reject _ _ => true
  | _ => false

/-- Fragments stored by `store_explicit` append exactly one explicit,
approved, confidence-1 row. -/
lemma storeExplicit_fragments (st : PMState) (c : String) (cat : Option String)
    (src : Option String) (m : List (String × String)) :
    (storeExplicit st c cat src m).2.fragments =
      st.fragments ++ [⟨st.nextId, c, FType.explicit, cat, 1, FStatus.approved, src, 1,
        st.clock, st.clock, none, m⟩] := rfl

/-- Fragment table after `approve_fragment`: unchanged on a missing id,
otherwise the matching row's status is set to approved. -/
lemma approveFragment_fragments_cases (st : PMState) (fid : Nat) (r : Option String) :
    (approveFragment st fid r).2.fragments = st.fragments ∨
    (approveFragment st fid r).2.fragments = st.fragments.map (fun g =>
      if g.fragId == fid then updateRow st.clock none (some FStatus.approved) none none none g
      else g) := by
  cases hf : findFragment st fid with
  | none =>
    left
    rw [approveFragment, hf]
  | some f =>
    right
    rw [approveFragment, hf]
    rfl

/-- Fragment table after `reject_fragment`: unchanged on a missing id,
otherwise the matching row's status is set to rejected. -/
lemma rejectFragment_fragments_cases (st : PMState) (fid : Nat) (r : Option String) :
    (rejectFragment st fid r).2.fragments = st.fragments ∨
    (rejectFragment st fid r).2.fragments = st.fragments.map (fun g =>
      if g.fragId == fid then updateRow st.clock none (some FStatus.rejected) none none none g
      else g) := by
  cases hf : findFragment st fid with
  | none =>
    left
    rw [rejectFragment, hf]
  | some f =>
    right
    rw [rejectFragment, hf]
    rfl

/-- Fragment table after `edit_and_approve`: unchanged on a missing id,
otherwise the matching row gets the new content and status approved. -/
lemma editAndApprove_fragments_cases (st : PMState) (fid : Nat) (c : String) (r : Option String) :
    (editAndApprove st fid c r).2.fragments = st.fragments ∨
    (editAndApprove st fid c r).2.fragments = st.fragments.map (fun g =>
      if g.fragId == fid then updateRow st.clock (some c) (some FStatus.approved) none none none g
      else g) := by
  cases hf : findFragment st fid with
  | none =>
    left
    rw [editAndApprove, hf]
  | some f =>
    right
    rw [editAndApprove, hf]
    rfl

/-- Fragment table after `delete_fragment`: unchanged on a missing id,
otherwise the matching row is removed. -/
lemma deleteFragment_fragments_cases (st : PMState) (fid : Nat) :
    (deleteFragment st fid).2.fragments = st.fragments ∨
    (deleteFragment st fid).2.fragments = st.fragments.filter (fun g => !(g.fragId == fid)) := by
  cases hf : findFragment st fid with
  | none =>
    left
    rw [deleteFragment, hf]
  | some f =>
    right
    rw [deleteFragment, hf]
    rfl

/-- Every fragment present after the inference loop was already present or
is an inferred fragment. -/
lemma inferLoop_fragments_mem (cfg : PCfg) (src : Option String) :
    ∀ (cands : List Candidate) (st : PMState) (g : Fragment),
      g ∈ (inferLoop cfg src st cands).2.fragments →
      g ∈ st.fragments ∨ g.ftype = FType.inferred := by
  intro cands
  induction cands with
  | nil =>
    intro st g hg
    exact Or.inl hg
  | cons c cs ih =>
    intro st g hg
    by_cases hc : Sena.pyStrip c.content = "" ∨ c.confidence < mkRat 1 2
    · rw [inferLoop, if_pos hc] at hg
      exact ih st g hg
    · rw [inferLoop, if_neg hc] at hg
      simp only at hg
      rcases ih _ g hg with hmem | hty
      · have hfr : ((if decideInitialStatus c.confidence cfg = FStatus.approved then
            { writeAudit (createFragment st (Sena.pyStrip c.content) FType.inferred (some c.category)
                c.confidence (decideInitialStatus c.confidence cfg) src [("inferred_at", "now")]).2
              (createFragment st (Sena.pyStrip c.content) FType.inferred (some c.category)
                c.confidence (decideInitialStatus c.confidence cfg) src [("inferred_at", "now")]).1.fragId
              "inferred" none (some (Sena.pyStrip c.content)) none
              (some (decideInitialStatus c.confidence cfg)) (some c.confidence)
              (some "LLM inference") with cacheDirty := true }
          else
            writeAudit (createFragment st (Sena.pyStrip c.content) FType.inferred (some c.category)
                c.confidence (decideInitialStatus c.confidence cfg) src [("inferred_at", "now")]).2
              (createFragment st (Sena.pyStrip c.content) FType.inferred (some c.category)
                c.confidence (decideInitialStatus c.confidence cfg) src [("inferred_at", "now")]).1.fragId
              "inferred" none (some (Sena.pyStrip c.content)) none
              (some (decideInitialStatus c.confidence cfg)) (some c.confidence)
              (some "LLM inference")).fragments : List Fragment) =
            st.fragments ++ [⟨st.nextId, Sena.pyStrip c.content, FType.inferred, some c.category,
              c.confidence, decideInitialStatus c.confidence cfg, src, 1, st.clock, st.clock,
              none, [("inferred_at", "now")]⟩] := by
          by_cases hs : decideInitialStatus c.confidence cfg = FStatus.approved <;>
            simp [hs, writeAudit, createFragment]
        rw [hfr] at hmem
        rcases List.mem_append.mp hmem with h1 | h2
        · exact Or.inl h1
        · right
          have : g = ⟨st.nextId, Sena.pyStrip c.content, FType.inferred, some c.category,
              c.confidence, decideInitialStatus c.confidence cfg, src, 1, st.clock, st.clock,
              none, [("inferred_at", "now")]⟩ := by simpa using h2
          rw [this]
      · exact Or.inr hty

/-- Invariant carried through every manager operation: explicit fragments
keep confidence 1 and are never pending. -/
def explicitOk (f : Fragment) : Prop :=
  f.ftype = FType.explicit → f.confidence = 1 ∧ f.status ≠ FStatus.pending

/-- Stronger invariant holding while no rejection is performed: explicit
fragments keep confidence 1 and stay approved. -/
def explicitApprovedOk (f : Fragment) : Prop :=
  f.ftype = FType.explicit → f.confidence = 1 ∧ f.status = FStatus.approved

/-- One manager operation preserves `explicitOk` for every fragment. -/
lemma applyPMOp_explicitOk (st : PMState) (op : PMOp)
    (h : ∀ f ∈ st.fragments, explicitOk f) :
    ∀ f ∈ (applyPMOp st op).fragments, explicitOk f := by
  cases op with
  | store c cat src m =>
    intro f hf
    rw [applyPMOp, storeExplicit_fragments] at hf
    rcases List.mem_append.mp hf with h1 | h2
    · exact h f h1
    · have hfe : f = ⟨st.nextId, c, FType.explicit, cat, 1, FStatus.approved, src, 1,
          st.clock, st.clock, none, m⟩ := by simpa using h2
      rw [hfe]
      intro _
      exact ⟨rfl, fun hcon => FStatus.noConfusion hcon⟩
  | infer cfg cands src =>
    intro f hf
    rw [applyPMOp] at hf
    have hmem : f ∈ st.fragments ∨ f.ftype = FType.inferred := by
      rw [inferFromConversation] at hf
      by_cases he : cfg.inferentialLearningEnabled = false
      · rw [if_pos he] at hf
        exact Or.inl hf
      · rw [if_neg he] at hf
        exact inferLoop_fragments_mem cfg src cands st f hf
    rcases hmem with h1 | h2
    · exact h f h1
    · intro hexp
      rw [h2] at hexp
      exact absurd hexp (by decide)
  | approve fid r =>
    intro f hf
    rw [applyPMOp] at hf
    rcases approveFragment_fragments_cases st fid r with hc | hc
    · rw [hc] at hf
      exact h f hf
    · rw [hc] at hf
      rcases List.mem_map.mp hf with ⟨g, hg, rfl⟩
      by_cases hid : (g.fragId == fid) = true
      · rw [if_pos hid]
        intro hexp
        obtain ⟨hconf, _⟩ := h g hg hexp
        exact ⟨hconf, fun hcon => FStatus.noConfusion hcon⟩
      · rw [if_neg hid]
        exact h g hg
  | reject fid r =>
    intro f hf
    rw [applyPMOp] at hf
    rcases rejectFragment_fragments_cases st fid r with hc | hc
    · rw [hc] at hf
      exact h f hf
    · rw [hc] at hf
      rcases List.mem_map.mp hf with ⟨g, hg, rfl⟩
      by_cases hid : (g.fragId == fid) = true
      · rw [if_pos hid]
        intro hexp
        obtain ⟨hconf, _⟩ := h g hg hexp
        exact ⟨hconf, fun hcon => FStatus.noConfusion hcon⟩
      · rw [if_neg hid]
        exact h g hg
  | editApprove fid c r =>
    intro f hf
    rw [applyPMOp] at hf
    rcases editAndApprove_fragments_cases st fid c r with hc | hc
    · rw [hc] at hf
      exact h f hf
    · rw [hc] at hf
      rcases List.mem_map.mp hf with ⟨g, hg, rfl⟩
      by_cases hid : (g.fragId == fid) = true
      · rw [if_pos hid]
        intro hexp
        obtain ⟨hconf, _⟩ := h g hg hexp
        exact ⟨hconf, fun hcon => FStatus.noConfusion hcon⟩
      · rw [if_neg hid]
        exact h g hg
  | delete fid =>
    intro f hf
    rw [applyPMOp] at hf
    rcases deleteFragment_fragments_cases st fid with hc | hc
    · rw [hc] at hf
      exact h f hf
    · rw [hc] at hf
      exact h f (List.mem_of_mem_filter hf)

/-- One non-reject manager operation preserves `explicitApprovedOk` for
every fragment. -/
lemma applyPMOp_explicitApprovedOk (st : PMState) (op : PMOp)
    (hop : isRejectOp op = false)
    (h : ∀ f ∈ st.fragments, explicitApprovedOk f) :
    ∀ f ∈ (applyPMOp st op).fragments, explicitApprovedOk f := by
  cases op with
  | store c cat src m =>
    intro f hf
    rw [applyPMOp, storeExplicit_fragments] at hf
    rcases List.mem_append.mp hf with h1 | h2
    · exact h f h1
    · have hfe : f = ⟨st.nextId, c, FType.explicit, cat, 1, FStatus.approved, src, 1,
          st.clock, st.clock, none, m⟩ := by simpa using h2
      rw [hfe]
      intro _
      exact ⟨rfl, rfl⟩
  | infer cfg cands src =>
    intro f hf
    rw [applyPMOp] at hf
    have hmem : f ∈ st.fragments ∨ f.ftype = FType.inferred := by
      rw [inferFromConversation] at hf
      by_cases he : cfg.inferentialLearningEnabled = false
      · rw [if_pos he] at hf
        exact Or.inl hf
      · rw [if_neg he] at hf
        exact inferLoop_fragments_mem cfg src cands st f hf
    rcases hmem with h1 | h2
    · exact h f h1
    · intro hexp
      rw [h2] at hexp
      exact absurd hexp (by decide)
  | approve fid r =>
    intro f hf
    rw [applyPMOp] at hf
    rcases approveFragment_fragments_cases st fid r with hc | hc
    · rw [hc] at hf
      exact h f hf
    · rw [hc] at hf
      rcases List.mem_map.mp hf with ⟨g, hg, rfl⟩
      by_cases hid : (g.fragId == fid) = true
      · rw [if_pos hid]
        intro hexp
        obtain ⟨hconf, _⟩ := h g hg hexp
        exact ⟨hconf, rfl⟩
      · rw [if_neg hid]
        exact h g hg
  | reject fid r =>
    simp [isRejectOp] at hop
  | editApprove fid c r =>
    intro f hf
    rw [applyPMOp] at hf
    rcases editAndApprove_fragments_cases st fid c r with hc | hc
    · rw [hc] at hf
      exact h f hf
    · rw [hc] at hf
      rcases List.mem_map.mp hf with ⟨g, hg, rfl⟩
      by_cases hid : (g.fragId == fid) = true
      · rw [if_pos hid]
        intro hexp
        obtain ⟨hconf, _⟩ := h g hg hexp
        exact ⟨hconf, rfl⟩
      · rw [if_neg hid]
        exact h g hg
  | delete fid =>
    intro f hf
    rw [applyPMOp] at hf
    rcases deleteFragment_fragments_cases st fid with hc | hc
    · rw [hc] at hf
      exact h f hf
    · rw [hc] at hf
      exact h f (List.mem_of_mem_filter hf)

/-- C5 (amended): in every state reachable through the manager's public
operations from an empty store, every fragment with kind=explicit has
confidence 1.0 and is never pending; it moreover has status approved in
every state reachable without a `rejectFragment` call.  As stated the
claim fails only because `reject_fragment` accepts explicit fragments and
sets their status to rejected. -/
theorem explicit_fragments_confidence_one_and_status (ops : List PMOp) :
    (∀ f ∈ (applyPMOps initPM ops).fragments, f.ftype = FType.explicit →
      f.confidence = 1 ∧ f.status ≠ FStatus.pending) ∧
    ((∀ op ∈ ops, isRejectOp op = false) →
      ∀ f ∈ (applyPMOps initPM ops).fragments, f.ftype = FType.explicit →
        f.confidence = 1 ∧ f.status = FStatus.approved) := by
  have main1 : ∀ (ops : List PMOp) (st : PMState), (∀ f ∈ st.fragments, explicitOk f) →
      ∀ f ∈ (applyPMOps st ops).fragments, explicitOk f := by
    intro ops
    induction ops with
    | nil => intro st h; exact h
    | cons op ops ih =>
      intro st h
      exact ih _ (applyPMOp_explicitOk st op h)
  have main2 : ∀ (ops : List PMOp) (st : PMState), (∀ op ∈ ops, isRejectOp op = false) →
      (∀ f ∈ st.fragments, explicitApprovedOk f) →
      ∀ f ∈ (applyPMOps st ops).fragments, explicitApprovedOk f := by
    intro ops
    induction ops with
    | nil => intro st _ h; exact h
    | cons op ops ih =>
      intro st hop h
      exact ih _ (fun o ho => hop o (List.mem_cons_of_mem _ ho))
        (applyPMOp_explicitApprovedOk st op (hop op (List.mem_cons_self _ _)) h)
  constructor
  · exact fun f hf => main1 ops initPM (fun f hf => absurd hf (List.not_mem_nil f)) f hf
  · intro hnr
    exact fun f hf => main2 ops initPM hnr (fun f hf => absurd hf (List.not_mem_nil f)) f hf

/-- Witness for the amended C5: a store-then-approve-then-infer run with
no rejection keeps the explicit fragment at confidence 1 and approved. -/
theorem explicit_fragments_confidence_one_and_status_witness :
    ∀ f ∈ (applyPMOps initPM
      [PMOp.store "User prefers dark mode" none (some "user_input") [],
       PMOp.infer ⟨true, true, true, mkRat 17 20⟩
         [⟨"User works remotely", mkRat 7 10, "fact"⟩] (some "conversation_extraction"),
       PMOp.approve 1 none]).fragments,
      f.ftype = FType.explicit → f.confidence = 1 ∧ f.status = FStatus.approved :=
  (explicit_fragments_confidence_one_and_status
    [PMOp.store "User prefers dark mode" none (some "user_input") [],
     PMOp.infer ⟨true, true, true, mkRat 17 20⟩
       [⟨"User works remotely", mkRat 7 10, "fact"⟩] (some "conversation_extraction"),
     PMOp.approve 1 none]).2 (by decide)

/-- Counterexample to C5 as stated: `storeExplicit` followed by
`rejectFragment` on the created fragment leaves an explicit fragment with
status rejected — reachable through the public operations, violating
"status = approved for every explicit fragment". -/
theorem explicit_fragment_rejected_counterexample :
    (applyPMOps initPM
      [PMOp.store "User prefers dark mode" none (some "user_input") [],
       PMOp.reject 0 none]).fragments.map (fun f => (f.ftype, f.status, f.confidence)) =
      [(FType.explicit, FStatus.rejected, 1)] := by
  decide

end Sena.Personality

namespace Sena.LongTerm

/-!
## LongTermMemory (`src/memory/long_term.py`)

Rows of `memory_long_term` keep their content as `List Char` so the SQL
`LIKE` operator can be given structural wildcard semantics.  `created_at`
is the state's strictly increasing `Nat` clock, therefore the row list is
maintained newest-first and coincides with `ORDER BY created_at DESC`;
`addMem` prepends.  The numpy float cosine similarity of
`_search_by_embedding` is abstracted as an explicit function parameter
`sim` (clamped to [0,1] as in the source); the zero-norm guards of the
float kernel live behind that abstraction — they only remove candidates,
i.e. produce the empty-result case.  The similarity rounding to 4 decimal
places only affects the reported relevance number.
-/

/-- One `memory_long_term` row. -/
structure LTRow where
  id : Nat
  content : List Char
  metadata : List (String × String)
  embedding : Option (List ℚ)
  createdAt : Nat
  accessCount : Nat
  lastAccessed : Option Nat
deriving DecidableEq, Repr

/-- Long-term store state; `rows` is newest-first. -/
structure LTState where
  rows : List LTRow
  clock : Nat
  nextId : Nat
deriving DecidableEq, Repr

/-- One search result dict (`memory_id`, `content`, …, `relevance`). -/
structure LTResult where
  memoryId : Nat
  content : List Char
  metadata : List (String × String)
  accessCount : Nat
  createdAt : Nat
  lastAccessed : Option Nat
  relevance : ℚ
deriving DecidableEq, Repr

/-- Result row built from a table row plus a relevance score. -/
def toResult (r : LTRow) (relevance : ℚ) : LTResult :=
  ⟨r.id, r.content, r.metadata, r.accessCount, r.createdAt, r.lastAccessed, relevance⟩

/-- `LongTermMemory.add`: reject blank content (`ValueError`), otherwise
INSERT a fresh row with a new UUID, `access_count = 0` and no
`last_accessed`. -/
def addMem (st : LTState) (content : List Char) (metadata : List (String × String))
    (embedding : Option (List ℚ)) : Except String (LTRow × LTState) :=
  if content.all Char.isWhitespace then Except.error "Memory content cannot be empty"
  else
    let row : LTRow := ⟨st.nextId, content, metadata, embedding, st.clock, 0, none⟩
    Except.ok (row, ⟨row :: st.rows, st.clock + 1, st.nextId + 1⟩)

/-- SQL `LIKE` pattern matching (case already folded by the source's
`LOWER(...)` and lowercase patterns): `%` matches any sequence — expressed
as matching the rest of the pattern against any suffix of the string —
`_` matches any single character, anything else itself. -/
def likeMatch : List Char → List Char → Bool
  | [], s => s.isEmpty
  | pc :: ps, s =>
    if pc == '%' then s.tails.any (fun t => likeMatch ps t)
    else
      match s with
      | [] => false
      | c :: s' => (pc == '_' || pc == c) && likeMatch ps s'

/-- Unfolding of `likeMatch` at an empty pattern. -/
lemma likeMatch_nil_pat (s : List Char) : likeMatch [] s = s.isEmpty := rfl

/-- Unfolding of `likeMatch` at a non-empty pattern. -/
lemma likeMatch_cons_pat (pc : Char) (ps s : List Char) :
    likeMatch (pc :: ps) s =
      (if pc == '%' then s.tails.any (fun t => likeMatch ps t)
       else
         match s with
         | [] => false
         | c :: s' => (pc == '_' || pc == c) && likeMatch ps s') := rfl

/-- Lower-case folding of a character list (`LOWER(content)` /
`query.lower()`). -/
def lowerL (s : List Char) : List Char := s.map Char.toLower

/-- The `f"%{kw}%"` LIKE pattern. -/
def wrapPat (x : List Char) : List Char := '%' :: (x ++ ['%'])

/-- Stop-word list of `LongTermMemory._extract_keywords`. -/
def stopWords : List String :=
  ["a", "an", "the", "of", "in", "on", "at", "to", "for", "with", "by", "from",
   "into", "about", "as", "is", "are", "was", "were", "be", "been", "being",
   "have", "has", "had", "do", "does", "did", "will", "would", "could",
   "should", "may", "might", "shall", "can",
   "i", "me", "my", "we", "us", "our", "you", "your", "he", "she", "it",
   "they", "them", "their",
   "what", "which", "who", "whom", "where", "when", "why", "how", "tell",
   "told", "said", "say", "ask", "asked", "remember", "recall", "forget",
   "know", "knew",
   "that", "this", "these", "those", "and", "or", "but", "not", "no", "so",
   "if", "then", "than", "there", "here", "just", "also", "already", "still",
   "again", "back", "up", "down", "out", "please", "let", "make"]

/-- Character class of the `[a-zA-Z0-9]+` word regex. -/
def isAlnum (c : Char) : Bool := c.isAlpha || c.isDigit

/-- Maximal alphanumeric runs of a character list
(`re.findall(r"[a-zA-Z0-9]+", …)`); `cur` is the current run reversed. -/
def wordsAux : List Char → List Char → List (List Char)
  | [], cur => if cur.isEmpty then [] else [cur.reverse]
  | c :: rest, cur =>
    if isAlnum c then wordsAux rest (c :: cur)
    else if cur.isEmpty then wordsAux rest []
    else cur.reverse :: wordsAux rest []

/-- Order-preserving deduplication keeping first occurrences. -/
def dedupFirst : List (List Char) → List (List Char) → List (List Char)
  | [], _ => []
  | w :: ws, seen => if seen.contains w then dedupFirst ws seen else w :: dedupFirst ws (w :: seen)

/-- `LongTermMemory._extract_keywords`: lowercase, split into alphanumeric
words, drop stop words and single characters, deduplicate preserving
order. -/
def extractKeywords (query : List Char) : List (List Char) :=
  let words := wordsAux (lowerL query) []
  let keywords := words.filter (fun w => !(stopWords.map String.toList).contains w && w.length > 1)
  dedupFirst keywords []

/-- Metadata lookup (dict read of the decoded JSON column). -/
def metaFind : List (String × String) → String → Option String
  | [], _ => none
  | (k, v) :: rest, key => if k = key then some v else metaFind rest key

/-- `LongTermMemory._matches_filter`: every filter key must be present
with an equal value. -/
def matchesFilter (metadata filt : List (String × String)) : Bool :=
  filt.all (fun kv => metaFind metadata kv.1 == some kv.2)

/-- `MIN_SIMILARITY` in `_search_by_embedding`. -/
def minSimilarity : ℚ := mkRat 3 10

/-- The source's `max(0.0, min(1.0, similarity))`. -/
def clamp01 (x : ℚ) : ℚ := max 0 (min 1 x)

/-- `LongTermMemory._search_by_embedding`: over the rows with a stored
embedding (already newest-first), skip empty embeddings, clamp the
similarity, drop scores below 0.30, apply the metadata filter, sort by
similarity descending and keep the top `k`. -/
def searchByEmbedding (sim : List ℚ → List ℚ → ℚ) (qEmb : List ℚ) (k : Nat)
    (mfilter : Option (List (String × String))) (rows : List LTRow) : List LTResult :=
  let scored : List (ℚ × LTRow) := rows.filterMap (fun r =>
    match r.embedding with
    | none => none
    | some e =>
      if e.isEmpty then none
      else
        let s := clamp01 (sim qEmb e)
        if s < minSimilarity then none
        else
          match mfilter with
          | some filt => if matchesFilter r.metadata filt then some (s, r) else none
          | none => some (s, r))
  (((scored.insertionSort (fun a b => b.1 ≤ a.1)).map (fun p => toResult p.2 p.1)).take k)

/-- Row predicate of the keyword query: with keywords, the OR-joined
`LOWER(content) LIKE %kw%` conditions; with no keywords, one
`LOWER(content) LIKE %query.lower()%` condition. -/
def rowMatchesKeywords (kws : List (List Char)) (query : List Char) (r : LTRow) : Bool :=
  if kws.isEmpty then likeMatch (wrapPat (lowerL query)) (lowerL r.content)
  else kws.any (fun kw => likeMatch (wrapPat kw) (lowerL r.content))

/-- `LongTermMemory._search_by_keywords`: LIKE query over-fetching
`2 × k` rows newest-first, then the in-process metadata filter, then the
top `k`, each with static relevance 0.5. -/
def searchByKeywords (query : List Char) (k : Nat)
    (mfilter : Option (List (String × String))) (rows : List LTRow) : List LTResult :=
  let kws := extractKeywords query
  let fetched := (rows.filter (rowMatchesKeywords kws query)).take (k * 2)
  let filtered : List LTRow := match mfilter with
    | some filt => fetched.filter (fun r : LTRow => matchesFilter r.metadata filt)
    | none => fetched
  (filtered.map (fun r => toResult r (mkRat 1 2))).take k

/-- `LongTermMemory._update_access_count` applied to every returned row. -/
def updateAccess (ids : List Nat) (rows : List LTRow) (now : Nat) : List LTRow :=
  rows.map (fun r =>
    if ids.contains r.id then { r with accessCount := r.accessCount + 1, lastAccessed := some now }
    else r)

/-- `LongTermMemory.search`: use the query embedding when available
(supplied or generated; `qEmb = none` models both "not supplied" and
"generation unavailable"), over-fetching `3 × k` and trimming to `k`;
whenever that phase yields no results, fall back to the keyword search;
finally bump access counts of the returned rows. -/
def search (sim : List ℚ → List ℚ → ℚ) (st : LTState) (query : List Char)
    (qEmb : Option (List ℚ)) (k : Nat) (mfilter : Option (List (String × String))) :
    List LTResult × LTState :=
  let r1 : List LTResult := match qEmb with
    | some e => (searchByEmbedding sim e (k * 3) mfilter st.rows).take k
    | none => []
  let results := if r1.isEmpty then searchByKeywords query k mfilter st.rows else r1
  (results,
    { st with
      rows := updateAccess (results.map (fun r : LTResult => r.memoryId)) st.rows st.clock
      clock := st.clock + 1 })

/-- Every pattern matches itself under LIKE. -/
lemma likeMatch_self : ∀ p : List Char, likeMatch p p = true := by
  intro p
  induction p with
  | nil => rfl
  | cons pc ps ih =>
    by_cases hpc : pc = '%'
    · subst hpc
      rw [likeMatch_cons_pat]
      rw [if_pos (by simp)]
      refine List.any_eq_true.mpr ⟨ps, ?_, ih⟩
      rw [List.mem_tails]
      exact ⟨['%'], rfl⟩
    · rw [likeMatch_cons_pat]
      rw [if_neg (by simp [hpc])]
      simp [ih]

/-- A pattern extended with a trailing `%` matches any right extension of
a string the original pattern matches. -/
lemma likeMatch_append_pct :
    ∀ (p t v : List Char), likeMatch p t = true → likeMatch (p ++ ['%']) (t ++ v) = true := by
  intro p
  induction p with
  | nil =>
    intro t v h
    have ht : t = [] := by
      cases t with
      | nil => rfl
      | cons a t' => simp [likeMatch_nil_pat] at h
    subst ht
    rw [List.nil_append, List.nil_append, likeMatch_cons_pat]
    rw [if_pos (by simp)]
    refine List.any_eq_true.mpr ⟨[], ?_, rfl⟩
    rw [List.mem_tails]
    exact ⟨v, by simp⟩
  | cons pc ps ih =>
    intro t v h
    by_cases hpc : pc = '%'
    · subst hpc
      rw [likeMatch_cons_pat, if_pos (by simp)] at h
      obtain ⟨t', ht', hmt'⟩ := List.any_eq_true.mp h
      rw [List.cons_append, likeMatch_cons_pat, if_pos (by simp)]
      refine List.any_eq_true.mpr ⟨t' ++ v, ?_, ih t' v hmt'⟩
      rw [List.mem_tails] at ht' ⊢
      obtain ⟨w, hw⟩ := ht'
      exact ⟨w, by rw [← List.append_assoc, hw]⟩
    · cases t with
      | nil => simp [likeMatch_cons_pat, hpc] at h
      | cons c t' =>
        rw [likeMatch_cons_pat, if_neg (by simp [hpc])] at h
        simp only [Bool.and_eq_true] at h
        rw [List.cons_append, List.cons_append, likeMatch_cons_pat, if_neg (by simp [hpc])]
        simp only [Bool.and_eq_true]
        exact ⟨h.1, ih t' v h.2⟩

/-- The `%p%` pattern matches any string containing a substring that `p`
matches. -/
lemma likeMatch_wrap_of_middle (p u t v : List Char) (h : likeMatch p t = true) :
    likeMatch (wrapPat p) (u ++ (t ++ v)) = true := by
  rw [wrapPat, likeMatch_cons_pat, if_pos (by simp)]
  refine List.any_eq_true.mpr ⟨t ++ v, ?_, likeMatch_append_pct p t v h⟩
  rw [List.mem_tails]
  exact ⟨u, rfl⟩

/-- Every word produced by `wordsAux` occurs contiguously in
`cur.reverse ++ s`. -/
lemma wordsAux_mem_middle :
    ∀ (s cur w : List Char), w ∈ wordsAux s cur →
      ∃ u v, cur.reverse ++ s = u ++ (w ++ v) := by
  intro s
  induction s with
  | nil =>
    intro cur w hw
    rw [wordsAux] at hw
    by_cases hc : cur.isEmpty = true
    · rw [if_pos hc] at hw
      exact absurd hw (List.not_mem_nil w)
    · rw [if_neg hc] at hw
      have hwe : w = cur.reverse := by simpa using hw
      exact ⟨[], [], by simp [hwe]⟩
  | cons c rest ih =>
    intro cur w hw
    rw [wordsAux] at hw
    by_cases ha : isAlnum c = true
    · rw [if_pos ha] at hw
      obtain ⟨u, v, huv⟩ := ih (c :: cur) w hw
      refine ⟨u, v, ?_⟩
      rw [← huv]
      simp
    · rw [if_neg ha] at hw
      by_cases hce : cur.isEmpty = true
      · rw [if_pos hce] at hw
        obtain ⟨u, v, huv⟩ := ih [] w hw
        have hcur : cur = [] := by
          cases cur with
          | nil => rfl
          | cons x xs => exact Bool.noConfusion hce
        subst hcur
        simp only [List.reverse_nil, List.nil_append] at huv
        exact ⟨c :: u, v, by simp [huv]⟩
      · rw [if_neg hce] at hw
        rcases List.mem_cons.mp hw with h1 | h2
        · exact ⟨[], c :: rest, by simp [h1]⟩
        · obtain ⟨u, v, huv⟩ := ih [] w h2
          simp only [List.reverse_nil, List.nil_append] at huv
          exact ⟨cur.reverse ++ (c :: u), v, by simp [huv]⟩

/-- Unfolding of `dedupFirst` at a non-empty list. -/
lemma dedupFirst_cons (x : List Char) (xs seen : List (List Char)) :
    dedupFirst (x :: xs) seen =
      (if seen.contains x then dedupFirst xs seen else x :: dedupFirst xs (x :: seen)) := rfl

/-- `dedupFirst` only keeps elements of its input. -/
lemma mem_dedupFirst :
    ∀ (ws seen : List (List Char)) (w : List Char), w ∈ dedupFirst ws seen → w ∈ ws := by
  intro ws
  induction ws with
  | nil =>
    intro seen w h
    exact absurd h (List.not_mem_nil w)
  | cons x xs ih =>
    intro seen w h
    rw [dedupFirst_cons] at h
    by_cases hc : seen.contains x = true
    · rw [if_pos hc] at h
      exact List.mem_cons_of_mem x (ih seen w h)
    · rw [if_neg hc] at h
      rcases List.mem_cons.mp h with h1 | h2
      · exact h1 ▸ List.mem_cons_self x xs
      · exact List.mem_cons_of_mem x (ih _ w h2)

/-- Every extracted keyword occurs contiguously in the lower-cased
query. -/
lemma mem_extractKeywords_middle (q kw : List Char) (h : kw ∈ extractKeywords q) :
    ∃ u v, lowerL q = u ++ (kw ++ v) := by
  rw [extractKeywords] at h
  have h1 := mem_dedupFirst _ _ _ h
  have h2 := List.mem_of_mem_filter h1
  have h3 := wordsAux_mem_middle (lowerL q) [] kw h2
  simpa using h3

/-- The keyword query built from a query string always matches a row whose
content is that very string: with keywords, the first keyword is a
substring of the lower-cased query; with no keywords, the whole lower-cased
query is its own LIKE pattern, which matches itself. -/
lemma searchByKeywords_finds_head (content : List Char) (k : Nat) (rows : List LTRow)
    (row : LTRow) (hk : 1 ≤ k) (hcont : row.content = content) :
    ∃ r ∈ searchByKeywords content k none (row :: rows), r.content = content := by
  have hmatch : rowMatchesKeywords (extractKeywords content) content row = true := by
    rw [rowMatchesKeywords]
    by_cases hkw : (extractKeywords content).isEmpty = true
    · rw [if_pos hkw, hcont]
      have h := likeMatch_wrap_of_middle (lowerL content) [] (lowerL content) []
        (likeMatch_self (lowerL content))
      simpa using h
    · rw [if_neg hkw]
      obtain ⟨kw, l, hex⟩ : ∃ kw l, extractKeywords content = kw :: l := by
        cases hex : extractKeywords content with
        | nil => simp [hex] at hkw
        | cons a l => exact ⟨a, l, rfl⟩
      have hkwmem : kw ∈ extractKeywords content := by
        rw [hex]
        exact List.mem_cons_self _ _
      obtain ⟨u, v, huv⟩ := mem_extractKeywords_middle content kw hkwmem
      refine List.any_eq_true.mpr ⟨kw, hkwmem, ?_⟩
      rw [hcont, huv]
      exact likeMatch_wrap_of_middle kw u kw v (likeMatch_self kw)
  simp only [searchByKeywords]
  rw [List.filter_cons_of_pos hmatch]
  obtain ⟨m, hm⟩ : ∃ m, k * 2 = m + 1 := ⟨k * 2 - 1, by omega⟩
  obtain ⟨m', hm'⟩ : ∃ m', k = m' + 1 := ⟨k - 1, by omega⟩
  rw [hm, List.take_succ_cons, List.map_cons, hm', List.take_succ_cons]
  exact ⟨toResult row (mkRat 1 2), List.mem_cons_self _ _, hcont⟩

/-- C8 (amended): after `add(c)` succeeds, a `search(c, k)` with `k ≥ 1`
and no metadata filter returns a result whose content equals `c`, provided
the embedding-ranked phase is not used or returns no results (no query
embedding is available, or every embedding-bearing row is filtered out).
As stated the claim fails because an available query embedding makes the
embedding phase authoritative, and the freshly added row — stored without
an embedding — can be shadowed by older embedding-bearing rows. -/
theorem add_then_search_returns_content
    (sim : List ℚ → List ℚ → ℚ) (st : LTState) (content : List Char)
    (metadata : List (String × String)) (emb qEmb : Option (List ℚ)) (k : Nat)
    (row : LTRow) (st1 : LTState)
    (hk : 1 ≤ k)
    (hadd : addMem st content metadata emb = Except.ok (row, st1))
    (hfall : (match qEmb with
      | some e => searchByEmbedding sim e (k * 3) none st1.rows
      | none => ([] : List LTResult)) = []) :
    ∃ r ∈ (search sim st1 content qEmb k none).1, r.content = content := by
  rw [addMem] at hadd
  by_cases hb : content.all Char.isWhitespace = true
  · rw [if_pos hb] at hadd
    exact absurd hadd (by simp)
  · rw [if_neg hb] at hadd
    simp only [Except.ok.injEq, Prod.mk.injEq] at hadd
    obtain ⟨hrow, hst1⟩ := hadd
    have hrows : st1.rows =
        (⟨st.nextId, content, metadata, emb, st.clock, 0, none⟩ : LTRow) :: st.rows := by
      rw [← hst1]
    cases qEmb with
    | none =>
      simp only [search]
      rw [hrows]
      exact searchByKeywords_finds_head content k st.rows _ hk rfl
    | some e =>
      have hfall' : searchByEmbedding sim e (k * 3) none st1.rows = [] := hfall
      simp only [search]
      rw [hfall']
      simp only [List.take_nil, List.isEmpty_nil, if_true]
      rw [hrows]
      exact searchByKeywords_finds_head content k st.rows _ hk rfl

/-- Witness for the amended C8: adding "hello world" to an empty store
with no embeddings and searching for it with `k = 1` returns it. -/
theorem add_then_search_returns_content_witness :
    ∃ r ∈ (search (fun _ _ => (1 : ℚ))
        (⟨[⟨0, "hello world".toList, [], none, 0, 0, none⟩], 1, 1⟩ : LTState)
        "hello world".toList none 1 none).1,
      r.content = "hello world".toList :=
  add_then_search_returns_content (fun _ _ => (1 : ℚ)) ⟨[], 0, 0⟩ "hello world".toList
    [] none none 1 ⟨0, "hello world".toList, [], none, 0, 0, none⟩
    ⟨[⟨0, "hello world".toList, [], none, 0, 0, none⟩], 1, 1⟩
    (by decide) rfl rfl

/-- Counterexample to C8 as stated: one old row "other content" stores an
embedding `[1]`; `add("hello")` stores the new row without an embedding;
`search("hello", 1)` with the query embedding `[1]` available ranks by
embedding similarity only (identical non-zero vectors give cosine
similarity 1.0 ≥ 0.30 in the source), returns the old row, never falls
back, and no returned result has content "hello". -/
theorem add_then_search_misses_new_row_counterexample :
    addMem (⟨[⟨0, "other content".toList, [], some [1], 0, 0, none⟩], 1, 1⟩ : LTState)
      "hello".toList [] none =
      Except.ok (⟨1, "hello".toList, [], none, 1, 0, none⟩,
        ⟨[⟨1, "hello".toList, [], none, 1, 0, none⟩,
          ⟨0, "other content".toList, [], some [1], 0, 0, none⟩], 2, 2⟩) ∧
    (search (fun _ _ => (1 : ℚ))
      (⟨[⟨1, "hello".toList, [], none, 1, 0, none⟩,
         ⟨0, "other content".toList, [], some [1], 0, 0, none⟩], 2, 2⟩ : LTState)
      "hello".toList (some [1]) 1 none).1.map (fun r => r.content) =
      ["other content".toList] ∧
    "other content".toList ≠ "hello".toList := by
  refine ⟨rfl, by decide, by decide⟩

/-- C10: whenever a query embedding is available but the embedding-ranked
phase returns zero results (no embedding-bearing rows, all similarities
below 0.30, or everything removed by the metadata filter), `search` falls
back to the keyword/LIKE search instead of returning the empty embedding
result. -/
theorem empty_embedding_phase_falls_back_to_keywords
    (sim : List ℚ → List ℚ → ℚ) (st : LTState) (query : List Char) (e : List ℚ)
    (k : Nat) (mfilter : Option (List (String × String)))
    (hemp : searchByEmbedding sim e (k * 3) mfilter st.rows = []) :
    (search sim st query (some e) k mfilter).1 = searchByKeywords query k mfilter st.rows := by
  simp only [search]
  rw [hemp]
  simp

/-- Witness for C10: a store whose only row has no embedding; the
embedding phase is empty and the search result equals the keyword-search
result. -/
theorem empty_embedding_phase_falls_back_to_keywords_witness :
    (search (fun _ _ => (1 : ℚ))
      (⟨[⟨0, "hello world".toList, [], none, 0, 0, none⟩], 1, 1⟩ : LTState)
      "hello".toList (some [1]) 5 none).1 =
      searchByKeywords "hello".toList 5 none
        [⟨0, "hello world".toList, [], none, 0, 0, none⟩] :=
  empty_embedding_phase_falls_back_to_keywords (fun _ _ => (1 : ℚ))
    ⟨[⟨0, "hello world".toList, [], none, 0, 0, none⟩], 1, 1⟩
    "hello".toList [1] 5 none (by decide)

end Sena.LongTerm
